import Mathlib

/-!
# Verification of the Neuro-lens meeting core

A shallow embedding of the cognitive-metric estimator
(`src/components/cognitiveModel.ts`) and of the face-tracking core
(`src/components/MeetingGuardian.tsx`), together with theorems settling the
frozen claims about the natural-language specification.

Conventions of the embedding:
* JavaScript numbers are modelled as exact rationals `ℚ` (the idealized
  real-number semantics of the arithmetic in the source); `NaN` sentinels
  (the Kalman filter's uninitialized state) become `Option`.
* `Math.pow (t, 1.5)` is not rational-valued, so it is carried as an explicit
  function parameter `pow15 : ℚ → ℚ`; every concrete evaluation instantiates
  it with a function that agrees with `t ^ 1.5` at each argument actually
  reached (all of which are perfect values such as `9 ^ 1.5 = 27`).
* The source compares Euclidean distances (`Math.sqrt`) only against each
  other and against the constant threshold `150`; since `Real.sqrt` is
  strictly monotone on nonnegatives, the embedding compares squared
  distances against `150 ^ 2 = 22500`, which yields identical branches.
* `Number.toFixed(2)` followed by `parseFloat` is modelled as rounding to the
  nearest multiple of `1/100`, half up (all rounded values here lie in
  `[0, 100]`, so signs never matter).
* `Date.now()` becomes an explicit `now : ℚ` argument threaded through.
-/

/-- `Math.max(0, Math.min(100, v))`, the clamp used throughout the source. -/
def clamp100 (v : ℚ) : ℚ := max 0 (min 100 v)

/-- `parseFloat(v.toFixed(2))`: round to two decimal places (half up). -/
def round2 (v : ℚ) : ℚ := (⌊v * 100 + 1/2⌋ : ℚ) / 100

/-! ## Signal Filter (`class KalmanFilter`, cognitiveModel.ts lines 5-33) -/

/-- The Kalman filter object: the tuning constants `R` (process noise) and
`Q` (measurement noise) fixed at construction, and the mutable pair
`(x, cov)`; the source initializes `x` and `cov` to `NaN` and branches on
`isNaN(this.x)`, modelled here as `Option (ℚ × ℚ)` with `none` for the
uninitialized state. -/
structure KalmanFilter where
  R : ℚ
  Q : ℚ
  st : Option (ℚ × ℚ)

/-- `KalmanFilter.filter(measurement)` (cognitiveModel.ts lines 19-32),
returning the updated object and the returned estimate.  The source's
constants `A = 1`, `B = 0`, `C = 1` are kept as let-bindings. -/
def KalmanFilter.filter (k : KalmanFilter) (measurement : ℚ) : KalmanFilter × ℚ :=
  let A : ℚ := 1
  let B : ℚ := 0
  let C : ℚ := 1
  match k.st with
  | none =>
      let x := (1 / C) * measurement
      let cov := (1 / C) * k.Q * (1 / C)
      ({ k with st := some (x, cov) }, x)
  | some (x, cov) =>
      let predX := (A * x) + (B * 0)
      let predCov := ((A * cov) * A) + k.R
      let K := predCov * C * (1 / ((C * predCov * C) + k.Q))
      let x' := predX + K * (measurement - (C * predX))
      let cov' := predCov - (K * C * predCov)
      ({ k with st := some (x', cov') }, x')

/-- Feeding a whole measurement sequence through a filter (final object). -/
def KalmanFilter.run (k : KalmanFilter) (ms : List ℚ) : KalmanFilter :=
  ms.foldl (fun a m => (a.filter m).1) k

/-! ## Cognitive Metric Estimator (`class CognitiveModel`, cognitiveModel.ts) -/

/-- `BiometricInput` (cognitiveModel.ts lines 36-50), with the nested
`expressionConfidence` record flattened into fields. -/
structure BiometricInput where
  yaw : ℚ
  pitch : ℚ
  roll : ℚ
  ear : ℚ
  blinkRate : ℚ
  neutral : ℚ
  happy : ℚ
  angry : ℚ
  fearful : ℚ
  surprised : ℚ
  interactionLevel : ℚ

/-- `CognitiveModelState` plus the three per-metric filter objects owned by
the class (cognitiveModel.ts lines 53-67): `attentionFilter` is constructed
with `(0.1, 10)`, `stressFilter` with `(0.1, 5)` and `flowFilter` with
`(0.01, 1)`. -/
structure CMState where
  attention : ℚ
  stress : ℚ
  curiosity : ℚ
  flowState : ℚ
  lastUpdate : ℚ
  attentionFilter : KalmanFilter
  stressFilter : KalmanFilter
  flowFilter : KalmanFilter

/-- The constructor state (cognitiveModel.ts lines 69-77), at construction
time `t0`. -/
def cmInit (t0 : ℚ) : CMState :=
  { attention := 50, stress := 30, curiosity := 60, flowState := 0
    lastUpdate := t0
    attentionFilter := ⟨1/10, 10, none⟩
    stressFilter := ⟨1/10, 5, none⟩
    flowFilter := ⟨1/100, 1, none⟩ }

/-- The local `rawAttention` of `CognitiveModel.update` after its clamp
(cognitiveModel.ts lines 86-97): yaw and pitch penalties via
`Math.pow(|·|, 1.5)` (carried as `pow15`), a 40-point deduction when
`ear < 0.15`, then `Math.max(0, Math.min(100, ·))`. -/
def cm_rawAttention (pow15 : ℚ → ℚ) (inp : BiometricInput) : ℚ :=
  let yawPenalty := pow15 |inp.yaw|
  let pitchPenalty := pow15 |inp.pitch - 5|
  let r := 100 - (yawPenalty + pitchPenalty)
  let r := if inp.ear < 15/100 then r - 40 else r
  clamp100 r

/-- The local `stressBase` of `CognitiveModel.update` before its clamp
(cognitiveModel.ts lines 106-117). -/
def cm_stressBase (inp : BiometricInput) : ℚ :=
  let s : ℚ := 30
  let s := if inp.blinkRate > 25 then s + 20
           else if inp.blinkRate < 5 then s + 10 else s
  let s := s + inp.angry * 40
  let s := s + inp.fearful * 50
  s - inp.happy * 20

/-- The local `curiosityBase` of `CognitiveModel.update` before its clamp
(cognitiveModel.ts lines 123-132); note the `+10` bonus tests the
already-smoothed attention value. -/
def cm_curiosityBase (smoothedAttention : ℚ) (inp : BiometricInput) : ℚ :=
  let c : ℚ := 50
  let c := if smoothedAttention > 70 then c + 10 else c
  let c := if inp.pitch < -5 ∧ inp.pitch > -20 then c + 15 else c
  c + inp.surprised * 40 + inp.happy * 10

/-- The record returned by `CognitiveModel.update` (cognitiveModel.ts
lines 141-146): a timestamp and the three metrics rounded to two decimals. -/
structure CMOut where
  time : ℚ
  attention : ℚ
  stress : ℚ
  curiosity : ℚ

/-- `CognitiveModel.update(input)` (cognitiveModel.ts lines 79-147) at wall
time `now`: raw attention is filtered by `attentionFilter`, clamped raw
stress by `stressFilter`, curiosity is clamped only, and the three smoothed
values are stored in the state and reported rounded to two decimals.  The
source computes an unused `dt`; it has no effect and is omitted, but
`lastUpdate` is maintained. -/
def cmUpdate (pow15 : ℚ → ℚ) (st : CMState) (now : ℚ) (inp : BiometricInput) :
    CMState × CMOut :=
  let rawAttention := cm_rawAttention pow15 inp
  let a := st.attentionFilter.filter rawAttention
  let smoothedAttention := a.2
  let s := st.stressFilter.filter (clamp100 (cm_stressBase inp))
  let smoothedStress := s.2
  let smoothedCuriosity := clamp100 (cm_curiosityBase smoothedAttention inp)
  ({ st with
      attention := smoothedAttention
      stress := smoothedStress
      curiosity := smoothedCuriosity
      lastUpdate := now
      attentionFilter := a.1
      stressFilter := s.1 },
   { time := now
     attention := round2 smoothedAttention
     stress := round2 smoothedStress
     curiosity := round2 smoothedCuriosity })

/-- Running the estimator over a timed input sequence (final state). -/
def cmRun (pow15 : ℚ → ℚ) (st : CMState) (l : List (ℚ × BiometricInput)) :
    CMState :=
  l.foldl (fun a p => (cmUpdate pow15 a p.1 p.2).1) st

/-- The reported outputs of a run, in order. -/
def cmOuts (pow15 : ℚ → ℚ) (st : CMState) :
    List (ℚ × BiometricInput) → List CMOut
  | [] => []
  | p :: l => (cmUpdate pow15 st p.1 p.2).2
      :: cmOuts pow15 (cmUpdate pow15 st p.1 p.2).1 l

/-! ## Track Manager (`MeetingGuardian.tsx`) -/

/-- `MAX_MISSING_FRAMES` (MeetingGuardian.tsx line 72). -/
def MAX_MISSING_FRAMES : ℕ := 5

/-- A bounding box `{x, y, w, h}`. -/
structure Box where
  x : ℚ
  y : ℚ
  w : ℚ
  h : ℚ

/-- A raw metrics triple. -/
structure Metrics where
  attention : ℚ
  stress : ℚ
  curiosity : ℚ

/-- `FaceState` (MeetingGuardian.tsx lines 46-52): one history entry. -/
structure FaceState where
  x : ℚ
  y : ℚ
  w : ℚ
  h : ℚ
  time : ℚ

/-- The `baseline` record of a track. -/
structure Baseline where
  w : ℚ
  y : ℚ

/-- `TrackedFace` (MeetingGuardian.tsx lines 54-67). -/
structure TrackedFace where
  id : ℕ
  lastSeen : ℚ
  box : Box
  metrics : Metrics
  history : List FaceState
  baseline : Baseline
  missingFrames : ℕ

/-- One upstream detection: the face-api box `{x, y, width, height}` and the
seven expression confidences used by `analyzeFrame`. -/
structure RawDet where
  x : ℚ
  y : ℚ
  width : ℚ
  height : ℚ
  neutral : ℚ
  happy : ℚ
  sad : ℚ
  angry : ℚ
  fearful : ℚ
  disgusted : ℚ
  surprised : ℚ

/-- The mapped detection object (`detectedObjects`, MeetingGuardian.tsx
lines 309-334) minus its mutable `matched`/`trackId` fields, which the
embedding carries in the assignment list instead. -/
structure DetObj where
  box : Box
  centerX : ℚ
  centerY : ℚ
  metrics : Metrics

/-- The detection-mapping step (MeetingGuardian.tsx lines 309-334): center
point and the three clamped expression-based raw metrics. -/
def toDetObj (d : RawDet) : DetObj :=
  let centerX := d.x + d.width / 2
  let centerY := d.y + d.height / 2
  let attention :=
    clamp100 ((d.neutral * (8/10) + d.surprised * (5/10) + d.happy * (2/10)) * 100
      - (d.sad * 30 + d.fearful * 30 + d.disgusted * 20))
  let stress := clamp100 ((d.angry + d.fearful + d.disgusted + d.sad * (5/10)) * 100)
  let curiosity := clamp100 ((d.surprised + d.happy) * 100)
  { box := ⟨d.x, d.y, d.width, d.height⟩
    centerX := centerX, centerY := centerY
    metrics := ⟨attention, stress, curiosity⟩ }

/-- The inner best-match scan of the greedy matcher (MeetingGuardian.tsx
lines 343-357): over the current track list, the index of the track whose
center is strictly nearest to the detection center, provided the distance is
strictly below `MATCH_DISTANCE_THRESHOLD = 150`; earlier indices win ties.
Distances are compared squared (threshold `150 ^ 2 = 22500`), which gives
the same branches as the source's `Math.sqrt` comparisons. -/
def bestMatchIdx (tracks : List TrackedFace) (cx cy : ℚ) : Option ℕ :=
  (tracks.enum.foldl (fun (acc : ℚ × Option ℕ) p =>
    let track := p.2
    let tcx := track.box.x + track.box.w / 2
    let tcy := track.box.y + track.box.h / 2
    let d2 := (cx - tcx) * (cx - tcx) + (cy - tcy) * (cy - tcy)
    if d2 < acc.1 then (d2, some p.1) else acc) (22500, none)).2

/-- The matched-track mutation (MeetingGuardian.tsx lines 360-390): reset
the missing counter, stamp `lastSeen`, push the center+size onto the history
(evicting the oldest entry past 30), nudge the `{w, y}` baseline by the
`0.99 / 0.01` moving average, and blend box and metrics `0.6` old / `0.4`
new. -/
def updateTrack (t : TrackedFace) (d : DetObj) (now : ℚ) : TrackedFace :=
  let hist := t.history ++ [⟨d.centerX, d.centerY, d.box.w, d.box.h, now⟩]
  let hist := if hist.length > 30 then hist.drop 1 else hist
  { t with
      missingFrames := 0
      lastSeen := now
      history := hist
      baseline := ⟨t.baseline.w * (99/100) + d.box.w * (1/100),
                   t.baseline.y * (99/100) + d.box.y * (1/100)⟩
      box := ⟨t.box.x * (6/10) + d.box.x * (4/10),
              t.box.y * (6/10) + d.box.y * (4/10),
              t.box.w * (6/10) + d.box.w * (4/10),
              t.box.h * (6/10) + d.box.h * (4/10)⟩
      metrics := ⟨t.metrics.attention * (6/10) + d.metrics.attention * (4/10),
                  t.metrics.stress * (6/10) + d.metrics.stress * (4/10),
                  t.metrics.curiosity * (6/10) + d.metrics.curiosity * (4/10)⟩ }

/-- One iteration of the greedy matching loop (MeetingGuardian.tsx
lines 342-395) for a single detection: find the nearest track, mutate it in
place, and record the claimed track id (the source's `detection.trackId`);
`none` is recorded for an unmatched detection.  The `none` fallback of the
lookup is unreachable because `bestMatchIdx` only yields indices of the
list it scanned. -/
def matchStep (now : ℚ) (acc : List TrackedFace × List (Option ℕ)) (d : DetObj) :
    List TrackedFace × List (Option ℕ) :=
  match bestMatchIdx acc.1 d.centerX d.centerY with
  | some i =>
      match acc.1[i]? with
      | some t => (acc.1.set i (updateTrack t d now), acc.2 ++ [some t.id])
      | none => (acc.1, acc.2 ++ [none])
  | none => (acc.1, acc.2 ++ [none])

/-- The whole greedy matching pass over one frame's detections, threading
the (mutated-in-place in the source) track list and accumulating the
per-detection assignments in detection order. -/
def matchPhase (tracks : List TrackedFace) (ds : List DetObj) (now : ℚ) :
    List TrackedFace × List (Option ℕ) :=
  ds.foldl (matchStep now) (tracks, [])

/-- The new track pushed for an unmatched detection (MeetingGuardian.tsx
lines 398-418): fresh id, zero missing counter, single-entry history, and
baseline equal to the detection's own `w` and `y`. -/
def newTrack (nid : ℕ) (d : DetObj) (now : ℚ) : TrackedFace :=
  { id := nid
    lastSeen := now
    box := d.box
    metrics := d.metrics
    history := [⟨d.centerX, d.centerY, d.box.w, d.box.h, now⟩]
    baseline := ⟨d.box.w, d.box.y⟩
    missingFrames := 0 }

/-- The track-creation pass (MeetingGuardian.tsx lines 397-418): walk the
detections with their match-phase assignments and push a freshly numbered
track for each unmatched one, bumping `nextPersonIdRef`. -/
def createPhase (ts : List TrackedFace) (nid : ℕ)
    (ps : List (DetObj × Option ℕ)) (now : ℚ) : List TrackedFace × ℕ :=
  ps.foldl (fun acc p =>
    match p.2 with
    | some _ => acc
    | none => (acc.1 ++ [newTrack acc.2 p.1 now], acc.2 + 1)) (ts, nid)

/-- `recent = history.slice(-5)` (MeetingGuardian.tsx line 238). -/
def recentOf (history : List FaceState) : List FaceState :=
  history.drop (history.length - 5)

/-- `avgMove` (MeetingGuardian.tsx lines 239-244): summed per-step absolute
displacements in x and y over `recent`, divided by `recent.length`. -/
def avgMoveOf (recent : List FaceState) : ℚ :=
  let moveX := ((recent.zip recent.tail).map (fun p => |p.2.x - p.1.x|)).sum
  let moveY := ((recent.zip recent.tail).map (fun p => |p.2.y - p.1.y|)).sum
  (moveX + moveY) / (recent.length : ℚ)

/-- The `(verticalReversals, horizontalReversals)` counters
(MeetingGuardian.tsx lines 257-270): local direction reversals over the
consecutive triples of `recent`, computed only when `recent.length >= 4`
(both stay `0` otherwise). -/
def reversalCounts (recent : List FaceState) : ℕ × ℕ :=
  if recent.length ≥ 4 then
    let triples := recent.zip (recent.tail.zip recent.tail.tail)
    (triples.countP (fun p =>
        decide ((p.2.1.y - p.1.y > 0 ∧ p.2.2.y - p.2.1.y < 0) ∨
                (p.2.1.y - p.1.y < 0 ∧ p.2.2.y - p.2.1.y > 0))),
     triples.countP (fun p =>
        decide ((p.2.1.x - p.1.x > 0 ∧ p.2.2.x - p.2.1.x < 0) ∨
                (p.2.1.x - p.1.x < 0 ∧ p.2.2.x - p.2.1.x > 0))))
  else (0, 0)

/-- `determineBodyLanguage` (MeetingGuardian.tsx lines 229-282). -/
def determineBodyLanguage (metrics : Metrics) (currentBox : Box)
    (history : List FaceState) (baseline : Baseline) : String :=
  if history.length < 3 then "Listening" else
  let recent := recentOf history
  let avgMove := avgMoveOf recent
  if avgMove > 15 ∧ metrics.stress > 60 then "Fidgeting"
  else if currentBox.w > baseline.w * (12/10) ∧ metrics.attention > 50 then
    "Leaning Forward"
  else if currentBox.y > baseline.y + baseline.w * (3/10) ∧ metrics.attention < 40 then
    "Slouching"
  else
    let vr := (reversalCounts recent).1
    let hr := (reversalCounts recent).2
    if vr ≥ 2 ∧ metrics.attention > 60 then "Nodding"
    else if hr ≥ 2 ∧ metrics.stress > 50 then "Head Shaking"
    else if metrics.stress > 75 ∧ avgMove < 2 then "Arms Crossed"
    else if metrics.attention > 80 then "Engaged"
    else "Listening"

/-- One emitted per-track snapshot (`uiParticipants`, MeetingGuardian.tsx
lines 424-464).  The source renders the identity as the string
`Person N`; the embedding keeps the numeric `N`, which the rendering is
injective in.  The `expressions` field the source always fills with the
empty object is omitted. -/
structure Snapshot where
  id : ℕ
  metrics : Metrics
  badSign : Bool
  bodyLanguage : String
  box : Box

/-- Track-manager state: the live track list (`trackedFacesRef`) and the
fresh-identity counter (`nextPersonIdRef`, initialized to 1). -/
structure TState where
  tracks : List TrackedFace
  nextId : ℕ

/-- The initial tracker state (MeetingGuardian.tsx lines 104-105). -/
def tInit : TState := ⟨[], 1⟩

/-- The snapshot built from one surviving track (MeetingGuardian.tsx
lines 424-464). -/
def snapshotOf (t : TrackedFace) : Snapshot :=
  { id := t.id
    metrics := t.metrics
    badSign := decide (t.metrics.stress > 75 ∧ t.metrics.attention < 35)
    bodyLanguage := determineBodyLanguage t.metrics t.box t.history t.baseline
    box := t.box }

/-- One full tracking pass of `analyzeFrame` (MeetingGuardian.tsx
lines 307-464) on one frame's detections at wall time `now`: map the
detections, age every track's missing counter, run the greedy match, create
tracks for unmatched detections, prune tracks whose missing counter exceeds
`MAX_MISSING_FRAMES`, and emit the snapshots.  Returns the new state, the
emitted snapshot list, and the match-phase assignment list. -/
def stepFull (s : TState) (dets : List RawDet) (now : ℚ) :
    TState × List Snapshot × List (Option ℕ) :=
  let objs := dets.map toDetObj
  let aged := s.tracks.map (fun t => { t with missingFrames := t.missingFrames + 1 })
  let m := matchPhase aged objs now
  let c := createPhase m.1 s.nextId (objs.zip m.2) now
  let pruned := c.1.filter (fun t => decide (t.missingFrames ≤ MAX_MISSING_FRAMES))
  (⟨pruned, c.2⟩, pruned.map snapshotOf, m.2)

/-- The post-frame tracker state. -/
def stepState (s : TState) (dets : List RawDet) (now : ℚ) : TState :=
  (stepFull s dets now).1

/-- The snapshots emitted for one frame. -/
def stepOut (s : TState) (dets : List RawDet) (now : ℚ) : List Snapshot :=
  (stepFull s dets now).2.1

/-- The match-phase assignments of one frame: entry `j` is `some i` when the
`j`-th detection claimed the pre-existing track with identity `i`. -/
def stepAssigns (s : TState) (dets : List RawDet) (now : ℚ) : List (Option ℕ) :=
  (stepFull s dets now).2.2

/-- One frame of input: a detection list and its wall time. -/
def Frame : Type := List RawDet × ℚ

/-- Running the tracker over a frame sequence. -/
def tRun (s : TState) (fs : List Frame) : TState :=
  fs.foldl (fun a f => stepState a f.1 f.2) s

/-- The per-frame snapshot lists of a run, in order. -/
def tRunOuts (s : TState) : List Frame → List (List Snapshot)
  | [] => []
  | f :: fs => stepOut s f.1 f.2 :: tRunOuts (stepState s f.1 f.2) fs

/-- The identities of a track list. -/
def trackIds (ts : List TrackedFace) : List ℕ := ts.map (fun t => t.id)

/-- The identities appearing in an emitted snapshot list. -/
def snapIds (out : List Snapshot) : List ℕ := out.map (fun o => o.id)

/-! ## Helper lemmas about the Signal Filter -/

/-- First call: the estimate is initialized to the measurement and the
covariance to the measurement-noise constant, and the measurement itself is
returned. -/
lemma kalman_filter_none (R Q m : ℚ) :
    KalmanFilter.filter ⟨R, Q, none⟩ m = (⟨R, Q, some (m, Q)⟩, m) := by
  simp [KalmanFilter.filter]

/-- Closed form of a subsequent call. -/
lemma kalman_filter_some (R Q x cov m : ℚ) :
    KalmanFilter.filter ⟨R, Q, some (x, cov)⟩ m =
      (⟨R, Q, some (x + (cov + R) * (1 / (cov + R + Q)) * (m - x),
                    (cov + R) - (cov + R) * (1 / (cov + R + Q)) * (cov + R))⟩,
       x + (cov + R) * (1 / (cov + R + Q)) * (m - x)) := by
  simp [KalmanFilter.filter]

/-- The correction step with positive noise constants and positive
covariance: the new estimate lies between the old estimate and the
measurement, it is exactly what is both returned and stored, and the stored
covariance stays positive. -/
lemma kalman_between (R Q x cov m : ℚ) (hR : 0 < R) (hQ : 0 < Q)
    (hcov : 0 < cov) :
    min x m ≤ (KalmanFilter.filter ⟨R, Q, some (x, cov)⟩ m).2 ∧
    (KalmanFilter.filter ⟨R, Q, some (x, cov)⟩ m).2 ≤ max x m ∧
    ∃ c, (KalmanFilter.filter ⟨R, Q, some (x, cov)⟩ m).1 =
      ⟨R, Q, some ((KalmanFilter.filter ⟨R, Q, some (x, cov)⟩ m).2, c)⟩ ∧ 0 < c := by
  rw [kalman_filter_some]
  have hp : (0:ℚ) < cov + R := by linarith
  have hpq : (0:ℚ) < cov + R + Q := by linarith
  have hK0 : (0:ℚ) < (cov + R) * (1 / (cov + R + Q)) := by positivity
  have hK1 : (cov + R) * (1 / (cov + R + Q)) < 1 := by
    rw [mul_one_div, div_lt_one hpq]; linarith
  refine ⟨?_, ?_, (cov + R) - (cov + R) * (1 / (cov + R + Q)) * (cov + R),
    rfl, ?_⟩
  · rcases le_total x m with h | h
    · rw [min_eq_left h]; nlinarith
    · rw [min_eq_right h]; nlinarith
  · rcases le_total x m with h | h
    · rw [max_eq_right h]; nlinarith
    · rw [max_eq_left h]; nlinarith
  · have : (cov + R) - (cov + R) * (1 / (cov + R + Q)) * (cov + R)
        = (cov + R) * Q / (cov + R + Q) := by
      field_simp; ring
    rw [this]; positivity

/-- Bounded measurements keep the corrected estimate in the same interval. -/
lemma kalman_mem_of_mem (R Q x cov m lo hi : ℚ) (hR : 0 < R) (hQ : 0 < Q)
    (hcov : 0 < cov) (hx : lo ≤ x ∧ x ≤ hi) (hm : lo ≤ m ∧ m ≤ hi) :
    lo ≤ (KalmanFilter.filter ⟨R, Q, some (x, cov)⟩ m).2 ∧
    (KalmanFilter.filter ⟨R, Q, some (x, cov)⟩ m).2 ≤ hi := by
  obtain ⟨h1, h2, -⟩ := kalman_between R Q x cov m hR hQ hcov
  constructor
  · calc lo ≤ min x m := le_min hx.1 hm.1
      _ ≤ _ := h1
  · calc (KalmanFilter.filter ⟨R, Q, some (x, cov)⟩ m).2 ≤ max x m := h2
      _ ≤ hi := max_le hx.2 hm.2

/-- After any nonempty measurement sequence starting from an initialized
state with positive covariance, the state is still initialized with positive
covariance. -/
lemma kalman_run_some (R Q : ℚ) (hR : 0 < R) (hQ : 0 < Q) :
    ∀ (ms : List ℚ) (x cov : ℚ), 0 < cov →
      ∃ y c, (KalmanFilter.run ⟨R, Q, some (x, cov)⟩ ms).st = some (y, c) ∧ 0 < c := by
  intro ms
  induction ms with
  | nil => intro x cov h; exact ⟨x, cov, rfl, h⟩
  | cons m ms ih =>
      intro x cov h
      obtain ⟨-, -, c, hst, hc⟩ := kalman_between R Q x cov m hR hQ h
      have hrun : KalmanFilter.run ⟨R, Q, some (x, cov)⟩ (m :: ms)
          = KalmanFilter.run ⟨R, Q, some ((KalmanFilter.filter ⟨R, Q, some (x, cov)⟩ m).2, c)⟩ ms := by
        show KalmanFilter.run (KalmanFilter.filter ⟨R, Q, some (x, cov)⟩ m).1 ms = _
        rw [hst]
      rw [hrun]
      exact ih _ c hc

/-- C7.  For positive process- and measurement-noise constants: the Signal
Filter's first call returns the measurement itself, with the estimate
initialized to the measurement and the covariance to the measurement-noise
constant; every subsequent call (any initialized state with positive
covariance, which the last conjunct shows every nonempty measurement history
produces) returns a value lying between the previous estimate and the new
measurement, and stores exactly that value as the new estimate together
with a positive covariance.  In this exact-rational embedding every value is
automatically finite; the positive-covariance invariant is what keeps the
gain's denominator nonzero. -/
theorem C7_signal_filter (R Q m x cov m' : ℚ) (ms : List ℚ)
    (hR : 0 < R) (hQ : 0 < Q) (hcov : 0 < cov) (hms : ms ≠ []) :
    (KalmanFilter.filter ⟨R, Q, none⟩ m).2 = m ∧
    (KalmanFilter.filter ⟨R, Q, none⟩ m).1 = ⟨R, Q, some (m, Q)⟩ ∧
    min x m' ≤ (KalmanFilter.filter ⟨R, Q, some (x, cov)⟩ m').2 ∧
    (KalmanFilter.filter ⟨R, Q, some (x, cov)⟩ m').2 ≤ max x m' ∧
    (∃ c, (KalmanFilter.filter ⟨R, Q, some (x, cov)⟩ m').1 =
      ⟨R, Q, some ((KalmanFilter.filter ⟨R, Q, some (x, cov)⟩ m').2, c)⟩ ∧ 0 < c) ∧
    (∃ y c, (KalmanFilter.run ⟨R, Q, none⟩ ms).st = some (y, c) ∧ 0 < c) := by
  obtain ⟨h1, h2, h3⟩ := kalman_between R Q x cov m' hR hQ hcov
  refine ⟨by rw [kalman_filter_none], by rw [kalman_filter_none], h1, h2, h3, ?_⟩
  obtain ⟨m₀, rest, rfl⟩ := List.exists_cons_of_ne_nil hms
  have : KalmanFilter.run ⟨R, Q, none⟩ (m₀ :: rest)
      = KalmanFilter.run ⟨R, Q, some (m₀, Q)⟩ rest := by
    show KalmanFilter.run (KalmanFilter.filter ⟨R, Q, none⟩ m₀).1 rest = _
    rw [kalman_filter_none]
  rw [this]
  exact kalman_run_some R Q hR hQ rest m₀ Q hQ

/-- Witness for C7 at `R = Q = 1`, first measurement `5`, then a correction
step from estimate `0`, covariance `1`, measurement `10`, and the one-element
measurement history `[3]`. -/
theorem C7_signal_filter_witness :
    (KalmanFilter.filter ⟨1, 1, none⟩ 5).2 = 5 ∧
    min 0 10 ≤ (KalmanFilter.filter ⟨1, 1, some (0, 1)⟩ 10).2 ∧
    (KalmanFilter.filter ⟨1, 1, some (0, 1)⟩ 10).2 ≤ max 0 10 ∧
    (∃ y c, (KalmanFilter.run ⟨1, 1, none⟩ [3]).st = some (y, c) ∧ 0 < c) := by
  have h := C7_signal_filter 1 1 5 0 1 10 [3] (by norm_num) (by norm_num)
    (by norm_num) (by simp)
  exact ⟨h.1, h.2.2.1, h.2.2.2.1, h.2.2.2.2.2⟩

/-! ## Claim C2: dedicated filters per metric -/

/-- Modelled from the spec sentence "Each raw output is passed through a
dedicated Signal Filter before being reported": a variant of `cmUpdate`
(for comparison with the source) in which the clamped raw curiosity is also
passed through its own dedicated filter — the class's third, otherwise
unused, filter instance (`flowFilter`) — before being stored and
reported. -/
def cmUpdateSpecFiltered (pow15 : ℚ → ℚ) (st : CMState) (now : ℚ)
    (inp : BiometricInput) : CMState × CMOut :=
  let rawAttention := cm_rawAttention pow15 inp
  let a := st.attentionFilter.filter rawAttention
  let smoothedAttention := a.2
  let s := st.stressFilter.filter (clamp100 (cm_stressBase inp))
  let smoothedStress := s.2
  let f := st.flowFilter.filter (clamp100 (cm_curiosityBase smoothedAttention inp))
  let smoothedCuriosity := f.2
  ({ st with
      attention := smoothedAttention
      stress := smoothedStress
      curiosity := smoothedCuriosity
      lastUpdate := now
      attentionFilter := a.1
      stressFilter := s.1
      flowFilter := f.1 },
   { time := now
     attention := round2 smoothedAttention
     stress := round2 smoothedStress
     curiosity := round2 smoothedCuriosity })

/-- The function standing for `Math.pow(t, 1.5)` in the concrete runs below:
it agrees with `t ^ 1.5` at every argument those runs reach (`|yaw|` and
`|pitch - 5|` only take the values `0`, `4`, `9` and `16` there, and
`0 ^ 1.5 = 0`, `4 ^ 1.5 = 8`, `9 ^ 1.5 = 27`, `16 ^ 1.5 = 64` exactly). -/
def pow15demo (t : ℚ) : ℚ :=
  if t = 4 then 8 else if t = 9 then 27 else if t = 16 then 64 else 0

/-- First input of the curiosity-filtering counterexample run: raw attention
`0` (yaw penalty `64`, closed-eye deduction), raw curiosity `100`
(surprised and happy both `1`). -/
def cmInpC : BiometricInput := ⟨16, 5, 0, 1/10, 10, 0, 1, 0, 0, 1, 0⟩

/-- Second input of that run: identical except surprised and happy are `0`,
so raw curiosity drops to `50`. -/
def cmInpD : BiometricInput := ⟨16, 5, 0, 1/10, 10, 0, 0, 0, 0, 0, 0⟩

/-- Counterexample to C2 as stated.  On the two-update run
`cmInpC, cmInpD` the source reports curiosity `50` — exactly the second raw
clamped value, with no memory of the first (`100`) — while the variant that
does pass curiosity through its dedicated filter reports `74.88`.  Raw
curiosity is therefore not passed through a Signal Filter before being
reported: the source's third filter is never used and curiosity is only
clamped. -/
theorem C2_counterexample :
    (cmUpdate pow15demo (cmUpdate pow15demo (cmInit 0) 1 cmInpC).1 2 cmInpD).2.curiosity
      = 50 ∧
    (cmUpdateSpecFiltered pow15demo
        (cmUpdateSpecFiltered pow15demo (cmInit 0) 1 cmInpC).1 2 cmInpD).2.curiosity
      = 7488/100 ∧
    (cmUpdate pow15demo (cmUpdate pow15demo (cmInit 0) 1 cmInpC).1 2 cmInpD).2.curiosity
      ≠ (cmUpdateSpecFiltered pow15demo
          (cmUpdateSpecFiltered pow15demo (cmInit 0) 1 cmInpC).1 2 cmInpD).2.curiosity := by
  norm_num [cmUpdate, cmUpdateSpecFiltered, cmInit, cmInpC, cmInpD, pow15demo,
    cm_rawAttention, cm_stressBase, cm_curiosityBase, clamp100, round2,
    KalmanFilter.filter]

/-- C2 (amended).  Attention and stress are each passed through their own
dedicated Signal Filter instance before being reported, and each reported
metric is a function of its own filter's state alone (two states agreeing on
the attention and stress filters produce identical reported triples,
whatever their other fields hold); all three reported values are rounded to
two decimal places.  Curiosity, however, is only clamped, never filtered:
its reported value is the rounded clamp of the raw curiosity base and the
third filter instance is left untouched by an update. -/
theorem C2_dedicated_filters_amended (pow15 : ℚ → ℚ) (st st₂ : CMState)
    (now now₂ : ℚ) (inp : BiometricInput)
    (hA : st₂.attentionFilter = st.attentionFilter)
    (hS : st₂.stressFilter = st.stressFilter) :
    (cmUpdate pow15 st now inp).2.attention
      = round2 ((st.attentionFilter.filter (cm_rawAttention pow15 inp)).2) ∧
    (cmUpdate pow15 st now inp).2.stress
      = round2 ((st.stressFilter.filter (clamp100 (cm_stressBase inp))).2) ∧
    (cmUpdate pow15 st now inp).2.curiosity
      = round2 (clamp100 (cm_curiosityBase
          ((st.attentionFilter.filter (cm_rawAttention pow15 inp)).2) inp)) ∧
    ((cmUpdate pow15 st now inp).1).flowFilter = st.flowFilter ∧
    (cmUpdate pow15 st₂ now₂ inp).2.attention
      = (cmUpdate pow15 st now inp).2.attention ∧
    (cmUpdate pow15 st₂ now₂ inp).2.stress
      = (cmUpdate pow15 st now inp).2.stress ∧
    (cmUpdate pow15 st₂ now₂ inp).2.curiosity
      = (cmUpdate pow15 st now inp).2.curiosity := by
  refine ⟨rfl, rfl, rfl, rfl, ?_, ?_, ?_⟩ <;> simp [cmUpdate, hA, hS]

/-- A state agreeing with the freshly constructed model on the attention and
stress filters but differing in every other field (used by the C2 witness). -/
def cmAltState : CMState :=
  { cmInit 0 with
      curiosity := 99
      flowState := 7
      flowFilter := ⟨1/100, 1, some (3, 1)⟩ }

/-- Witness for the amended C2 at two concrete states that agree on the
attention and stress filters but differ in every other field. -/
theorem C2_dedicated_filters_witness :
    (cmUpdate pow15demo (cmInit 0) 1 cmInpC).2.attention
      = round2 (((cmInit 0).attentionFilter.filter
          (cm_rawAttention pow15demo cmInpC)).2) ∧
    (cmUpdate pow15demo cmAltState 2 cmInpC).2.curiosity
      = (cmUpdate pow15demo (cmInit 0) 1 cmInpC).2.curiosity := by
  have h := C2_dedicated_filters_amended pow15demo (cmInit 0)
    cmAltState 1 2 cmInpC rfl rfl
  exact ⟨h.1, h.2.2.2.2.2.2⟩

/-! ## Claim C9: the geometric/biometric formulas -/

/-- The spec's attention formula, written as the spec writes it:
`clamp(0,100, 100 - |yaw|^1.5 - |pitch - 5|^1.5 - (40 if ear < 0.15 else 0))`. -/
def spec_attention (pow15 : ℚ → ℚ) (inp : BiometricInput) : ℚ :=
  clamp100 (100 - pow15 |inp.yaw| - pow15 |inp.pitch - 5|
    - (if inp.ear < 15/100 then 40 else 0))

/-- The spec's stress formula: `clamp(0,100, 30 + (20 if blinkRate>25 else
10 if blinkRate<5 else 0) + 40*angry + 50*fearful - 20*happy)`. -/
def spec_stress (inp : BiometricInput) : ℚ :=
  clamp100 (30 + (if inp.blinkRate > 25 then 20
      else if inp.blinkRate < 5 then 10 else 0)
    + 40 * inp.angry + 50 * inp.fearful - 20 * inp.happy)

/-- The spec's curiosity formula with the attention value it tests left as a
parameter `a`: `clamp(0,100, 50 + (10 if a>70 else 0) + (15 if
-20<pitch<-5 else 0) + 40*surprised + 10*happy)`. -/
def spec_curiosity (a : ℚ) (inp : BiometricInput) : ℚ :=
  clamp100 (50 + (if a > 70 then 10 else 0)
    + (if -20 < inp.pitch ∧ inp.pitch < -5 then 15 else 0)
    + 40 * inp.surprised + 10 * inp.happy)

/-- First input of the raw-versus-smoothed-attention counterexample run:
raw attention `100` (yaw `0`, pitch `5`, eyes open). -/
def cmInpA : BiometricInput := ⟨0, 5, 0, 3/10, 10, 0, 0, 0, 0, 0, 0⟩

/-- Second input of that run: yaw `9` and pitch `9` give raw attention
`100 - 27 - 8 = 65`, which is not above `70`, while the smoothed attention
(`16565/201 ≈ 82.4`) still is. -/
def cmInpB : BiometricInput := ⟨9, 9, 0, 3/10, 10, 0, 0, 0, 0, 0, 0⟩

/-- Counterexample to C9 as stated.  The claim's curiosity formula tests the
raw attention of the same frame (`attention > 70` with `attention` the first
formula's value).  On the two-update run `cmInpA, cmInpB` the second frame's
raw attention is `65`, so the claim's formula yields `50`; but the source
tests the smoothed attention (`16565/201 > 70`) and reports `60`. -/
theorem C9_counterexample :
    (cmUpdate pow15demo (cmUpdate pow15demo (cmInit 0) 1 cmInpA).1 2 cmInpB).2.curiosity
      = 60 ∧
    spec_attention pow15demo cmInpB = 65 ∧
    round2 (spec_curiosity (spec_attention pow15demo cmInpB) cmInpB) = 50 := by
  norm_num [cmUpdate, cmInit, cmInpA, cmInpB, pow15demo, cm_rawAttention,
    cm_stressBase, cm_curiosityBase, clamp100, round2, KalmanFilter.filter,
    spec_attention, spec_curiosity]

/-- C9 (amended).  For every state and input, the attention and stress
formulas hold exactly as the spec states them, and the curiosity formula
holds with `attention > 70` read as a test of the smoothed (filtered)
attention of the same update rather than of the raw attention formula value:
the reported metrics are the rounded filter outputs of the spec's attention
and stress formulas, and the rounded spec curiosity formula evaluated at the
smoothed attention. -/
theorem C9_geometric_formulas_amended (pow15 : ℚ → ℚ) (st : CMState)
    (now : ℚ) (inp : BiometricInput) :
    cm_rawAttention pow15 inp = spec_attention pow15 inp ∧
    clamp100 (cm_stressBase inp) = spec_stress inp ∧
    (cmUpdate pow15 st now inp).2.attention
      = round2 ((st.attentionFilter.filter (spec_attention pow15 inp)).2) ∧
    (cmUpdate pow15 st now inp).2.stress
      = round2 ((st.stressFilter.filter (spec_stress inp)).2) ∧
    (cmUpdate pow15 st now inp).2.curiosity
      = round2 (spec_curiosity
          ((st.attentionFilter.filter (spec_attention pow15 inp)).2) inp) := by
  have hatt : cm_rawAttention pow15 inp = spec_attention pow15 inp := by
    unfold cm_rawAttention spec_attention
    split_ifs <;> ring_nf
  have hstr : clamp100 (cm_stressBase inp) = spec_stress inp := by
    unfold cm_stressBase spec_stress
    split_ifs <;> ring_nf
  have hpitch : (inp.pitch < -5 ∧ inp.pitch > -20) = (-20 < inp.pitch ∧ inp.pitch < -5) := by
    apply propext
    constructor <;> exact fun h => ⟨h.2, h.1⟩
  have hcur : ∀ a : ℚ, clamp100 (cm_curiosityBase a inp) = spec_curiosity a inp := by
    intro a
    simp only [cm_curiosityBase, spec_curiosity, hpitch]
    split_ifs <;> ring_nf
  refine ⟨hatt, hstr, ?_, ?_, ?_⟩
  · show round2 ((st.attentionFilter.filter (cm_rawAttention pow15 inp)).2) = _
    rw [hatt]
  · show round2 ((st.stressFilter.filter (clamp100 (cm_stressBase inp))).2) = _
    rw [hstr]
  · show round2 (clamp100 (cm_curiosityBase
        ((st.attentionFilter.filter (cm_rawAttention pow15 inp)).2) inp)) = _
    rw [hcur, hatt]

/-! ## Claim C3: all metrics stay in [0, 100] -/

/-- The clamp always lands in `[0, 100]`. -/
lemma clamp100_mem (v : ℚ) : 0 ≤ clamp100 v ∧ clamp100 v ≤ 100 := by
  unfold clamp100
  exact ⟨le_max_left 0 _, max_le (by norm_num) (min_le_left _ _)⟩

/-- Rounding to two decimals keeps `[0, 100]`. -/
lemma round2_mem (v : ℚ) (h0 : 0 ≤ v) (h1 : v ≤ 100) :
    0 ≤ round2 v ∧ round2 v ≤ 100 := by
  unfold round2
  constructor
  · have h : (0 : ℤ) ≤ ⌊v * 100 + 1/2⌋ := by
      rw [Int.le_floor]
      push_cast
      linarith
    have h' : (0 : ℚ) ≤ (⌊v * 100 + 1/2⌋ : ℚ) := by exact_mod_cast h
    positivity
  · have h : ⌊v * 100 + 1/2⌋ ≤ (10000 : ℤ) := by
      have h2 : ⌊v * 100 + 1/2⌋ ≤ ⌊(10000 + 1/2 : ℚ)⌋ :=
        Int.floor_le_floor (by linarith)
      have h3 : ⌊(10000 + 1/2 : ℚ)⌋ = 10000 := by norm_num [Int.floor_eq_iff]
      omega
    rw [div_le_iff₀ (by norm_num : (0:ℚ) < 100)]
    calc (⌊v * 100 + 1/2⌋ : ℚ) ≤ (10000 : ℚ) := by exact_mod_cast h
      _ = 100 * 100 := by norm_num

/-- A healthy filter object: positive noise constants, and if initialized,
an estimate in `[0, 100]` with positive covariance. -/
def KalmanGood (k : KalmanFilter) : Prop :=
  0 < k.R ∧ 0 < k.Q ∧
  ∀ x c, k.st = some (x, c) → (0 ≤ x ∧ x ≤ 100) ∧ 0 < c

/-- One filter call on an in-range measurement keeps the filter healthy and
returns an in-range estimate. -/
lemma kalman_filter_good (k : KalmanFilter) (m : ℚ) (hk : KalmanGood k)
    (hm : 0 ≤ m ∧ m ≤ 100) :
    KalmanGood (k.filter m).1 ∧ 0 ≤ (k.filter m).2 ∧ (k.filter m).2 ≤ 100 := by
  obtain ⟨R, Q, st⟩ := k
  obtain ⟨hR, hQ, hst⟩ := hk
  match st with
  | none =>
      rw [kalman_filter_none]
      refine ⟨⟨hR, hQ, ?_⟩, hm.1, hm.2⟩
      intro x c h
      injection h with h
      injection h with h1 h2
      subst h1; subst h2
      exact ⟨hm, hQ⟩
  | some (x, cov) =>
      obtain ⟨hx, hcov⟩ := hst x cov rfl
      obtain ⟨h0, h1⟩ := kalman_mem_of_mem R Q x cov m 0 100 hR hQ hcov hx hm
      obtain ⟨-, -, c, hc, hcpos⟩ := kalman_between R Q x cov m hR hQ hcov
      refine ⟨?_, h0, h1⟩
      rw [hc]
      refine ⟨hR, hQ, ?_⟩
      intro y d h
      injection h with h
      injection h with hy hd
      subst hy; subst hd
      exact ⟨⟨h0, h1⟩, hcpos⟩

/-- A healthy estimator state: metrics in `[0, 100]`, healthy attention and
stress filters. -/
def CMGood (st : CMState) : Prop :=
  (0 ≤ st.attention ∧ st.attention ≤ 100) ∧
  (0 ≤ st.stress ∧ st.stress ≤ 100) ∧
  (0 ≤ st.curiosity ∧ st.curiosity ≤ 100) ∧
  KalmanGood st.attentionFilter ∧ KalmanGood st.stressFilter

/-- The constructor state is healthy. -/
lemma cmInit_good (t0 : ℚ) : CMGood (cmInit t0) := by
  refine ⟨by norm_num [cmInit], by norm_num [cmInit], by norm_num [cmInit], ?_, ?_⟩ <;>
    exact ⟨by norm_num [cmInit], by norm_num [cmInit], fun x c h => by simp [cmInit] at h⟩

/-- One update keeps the state healthy and reports in-range rounded
metrics. -/
lemma cmUpdate_good (pow15 : ℚ → ℚ) (st : CMState) (now : ℚ)
    (inp : BiometricInput) (h : CMGood st) :
    CMGood (cmUpdate pow15 st now inp).1 ∧
    (0 ≤ (cmUpdate pow15 st now inp).2.attention ∧
      (cmUpdate pow15 st now inp).2.attention ≤ 100) ∧
    (0 ≤ (cmUpdate pow15 st now inp).2.stress ∧
      (cmUpdate pow15 st now inp).2.stress ≤ 100) ∧
    (0 ≤ (cmUpdate pow15 st now inp).2.curiosity ∧
      (cmUpdate pow15 st now inp).2.curiosity ≤ 100) := by
  obtain ⟨-, -, -, hA, hS⟩ := h
  have hraw : 0 ≤ cm_rawAttention pow15 inp ∧ cm_rawAttention pow15 inp ≤ 100 := by
    unfold cm_rawAttention
    exact clamp100_mem _
  have ha := kalman_filter_good st.attentionFilter (cm_rawAttention pow15 inp) hA hraw
  have hs := kalman_filter_good st.stressFilter (clamp100 (cm_stressBase inp)) hS
    (clamp100_mem _)
  have hcur := clamp100_mem (cm_curiosityBase
    ((st.attentionFilter.filter (cm_rawAttention pow15 inp)).2) inp)
  refine ⟨⟨⟨ha.2.1, ha.2.2⟩, ⟨hs.2.1, hs.2.2⟩, hcur, ha.1, hs.1⟩,
    round2_mem _ ha.2.1 ha.2.2, round2_mem _ hs.2.1 hs.2.2,
    round2_mem _ hcur.1 hcur.2⟩

/-- Health is preserved along any run. -/
lemma cmRun_good (pow15 : ℚ → ℚ) :
    ∀ (l : List (ℚ × BiometricInput)) (st : CMState), CMGood st →
      CMGood (cmRun pow15 st l) := by
  intro l
  induction l with
  | nil => intro st h; exact h
  | cons p l ih =>
      intro st h
      exact ih _ (cmUpdate_good pow15 st p.1 p.2 h).1

/-- Every output of a run from a healthy state is in range. -/
lemma cmOuts_good (pow15 : ℚ → ℚ) :
    ∀ (l : List (ℚ × BiometricInput)) (st : CMState), CMGood st →
      ∀ o ∈ cmOuts pow15 st l,
        (0 ≤ o.attention ∧ o.attention ≤ 100) ∧
        (0 ≤ o.stress ∧ o.stress ≤ 100) ∧
        (0 ≤ o.curiosity ∧ o.curiosity ≤ 100) := by
  intro l
  induction l with
  | nil => intro st h o ho; simp [cmOuts] at ho
  | cons p l ih =>
      intro st h o ho
      simp only [cmOuts, List.mem_cons] at ho
      obtain ⟨hg, hbounds⟩ := cmUpdate_good pow15 st p.1 p.2 h
      rcases ho with rfl | ho
      · exact hbounds
      · exact ih _ hg o ho

/-- A metrics triple in range. -/
def MetricsGood (m : Metrics) : Prop :=
  (0 ≤ m.attention ∧ m.attention ≤ 100) ∧
  (0 ≤ m.stress ∧ m.stress ≤ 100) ∧
  (0 ≤ m.curiosity ∧ m.curiosity ≤ 100)

/-- Every mapped detection carries in-range raw metrics, whatever the
upstream expression values are (the mapping clamps each one). -/
lemma toDetObj_good (d : RawDet) : MetricsGood (toDetObj d).metrics := by
  unfold toDetObj MetricsGood
  exact ⟨clamp100_mem _, clamp100_mem _, clamp100_mem _⟩

/-- The `0.6 / 0.4` blend of two in-range triples is in range. -/
lemma updateTrack_good (t : TrackedFace) (d : DetObj) (now : ℚ)
    (ht : MetricsGood t.metrics) (hd : MetricsGood d.metrics) :
    MetricsGood (updateTrack t d now).metrics := by
  obtain ⟨⟨ta0, ta1⟩, ⟨ts0, ts1⟩, ⟨tc0, tc1⟩⟩ := ht
  obtain ⟨⟨da0, da1⟩, ⟨ds0, ds1⟩, ⟨dc0, dc1⟩⟩ := hd
  unfold updateTrack MetricsGood
  refine ⟨⟨?_, ?_⟩, ⟨?_, ?_⟩, ⟨?_, ?_⟩⟩ <;> simp only <;> linarith

/-- One matching iteration preserves in-range track metrics. -/
lemma matchStep_good (now : ℚ) (acc : List TrackedFace × List (Option ℕ))
    (d : DetObj) (hacc : ∀ t ∈ acc.1, MetricsGood t.metrics)
    (hd : MetricsGood d.metrics) :
    ∀ t ∈ (matchStep now acc d).1, MetricsGood t.metrics := by
  intro u hu
  cases hbm : bestMatchIdx acc.1 d.centerX d.centerY with
  | none =>
      have h1 : (matchStep now acc d).1 = acc.1 := by simp [matchStep, hbm]
      rw [h1] at hu
      exact hacc u hu
  | some i =>
      cases hget : acc.1[i]? with
      | none =>
          have h1 : (matchStep now acc d).1 = acc.1 := by simp [matchStep, hbm, hget]
          rw [h1] at hu
          exact hacc u hu
      | some t =>
          have h1 : (matchStep now acc d).1 = acc.1.set i (updateTrack t d now) := by
            simp [matchStep, hbm, hget]
          rw [h1] at hu
          rcases List.mem_or_eq_of_mem_set hu with hu | rfl
          · exact hacc u hu
          · exact updateTrack_good t d now (hacc t (List.getElem?_mem hget)) hd

/-- The whole matching pass preserves in-range track metrics. -/
lemma matchPhase_good (now : ℚ) :
    ∀ (ds : List DetObj) (acc : List TrackedFace × List (Option ℕ)),
      (∀ t ∈ acc.1, MetricsGood t.metrics) →
      (∀ d ∈ ds, MetricsGood d.metrics) →
      ∀ t ∈ (ds.foldl (matchStep now) acc).1, MetricsGood t.metrics := by
  intro ds
  induction ds with
  | nil => intro acc hacc _; exact hacc
  | cons d ds ih =>
      intro acc hacc hds
      exact ih (matchStep now acc d)
        (matchStep_good now acc d hacc (hds d (List.mem_cons_self d ds)))
        (fun e he => hds e (List.mem_cons_of_mem d he))

/-- The creation pass preserves in-range track metrics. -/
lemma createPhase_good (now : ℚ) :
    ∀ (ps : List (DetObj × Option ℕ)) (ts : List TrackedFace) (nid : ℕ),
      (∀ t ∈ ts, MetricsGood t.metrics) →
      (∀ p ∈ ps, MetricsGood p.1.metrics) →
      ∀ t ∈ (createPhase ts nid ps now).1, MetricsGood t.metrics := by
  intro ps
  induction ps with
  | nil => intro ts nid hts _; exact hts
  | cons p ps ih =>
      intro ts nid hts hps
      match hp : p.2 with
      | some j =>
          have : createPhase ts nid (p :: ps) now = createPhase ts nid ps now := by
            unfold createPhase
            simp [List.foldl_cons, hp]
          rw [this]
          exact ih ts nid hts (fun e he => hps e (List.mem_cons_of_mem p he))
      | none =>
          have : createPhase ts nid (p :: ps) now
              = createPhase (ts ++ [newTrack nid p.1 now]) (nid + 1) ps now := by
            unfold createPhase
            simp [List.foldl_cons, hp]
          rw [this]
          refine ih _ _ ?_ (fun e he => hps e (List.mem_cons_of_mem p he))
          intro t ht
          rcases List.mem_append.mp ht with ht | ht
          · exact hts t ht
          · rw [List.mem_singleton.mp ht]
            exact hps p (List.mem_cons_self p ps)

/-- One full frame pass keeps both the surviving tracks' metrics and the
emitted snapshots' metrics in range. -/
lemma step_good (s : TState) (dets : List RawDet) (now : ℚ)
    (h : ∀ t ∈ s.tracks, MetricsGood t.metrics) :
    (∀ t ∈ (stepState s dets now).tracks, MetricsGood t.metrics) ∧
    (∀ o ∈ stepOut s dets now, MetricsGood o.metrics) := by
  have haged : ∀ t ∈ s.tracks.map
      (fun t => { t with missingFrames := t.missingFrames + 1 }),
      MetricsGood t.metrics := by
    intro t ht
    obtain ⟨u, hu, rfl⟩ := List.mem_map.mp ht
    exact h u hu
  have hobjs : ∀ d ∈ dets.map toDetObj, MetricsGood d.metrics := by
    intro d hd
    obtain ⟨r, hr, rfl⟩ := List.mem_map.mp hd
    exact toDetObj_good r
  have hm : ∀ t ∈ (matchPhase
      (s.tracks.map (fun t => { t with missingFrames := t.missingFrames + 1 }))
      (dets.map toDetObj) now).1, MetricsGood t.metrics :=
    matchPhase_good now (dets.map toDetObj) (_, []) haged hobjs
  have hzip : ∀ p ∈ (dets.map toDetObj).zip (matchPhase
      (s.tracks.map (fun t => { t with missingFrames := t.missingFrames + 1 }))
      (dets.map toDetObj) now).2, MetricsGood p.1.metrics := by
    intro p hp
    obtain ⟨a, b⟩ := p
    exact hobjs a (List.of_mem_zip hp).1
  have hc := createPhase_good now
    ((dets.map toDetObj).zip (matchPhase
      (s.tracks.map (fun t => { t with missingFrames := t.missingFrames + 1 }))
      (dets.map toDetObj) now).2)
    (matchPhase
      (s.tracks.map (fun t => { t with missingFrames := t.missingFrames + 1 }))
      (dets.map toDetObj) now).1
    s.nextId hm hzip
  have hpruned : ∀ t ∈ (stepState s dets now).tracks, MetricsGood t.metrics := by
    intro t ht
    simp only [stepState, stepFull] at ht
    exact hc t (List.mem_filter.mp ht).1
  refine ⟨hpruned, ?_⟩
  intro o ho
  simp only [stepOut, stepFull] at ho
  obtain ⟨t, ht, rfl⟩ := List.mem_map.mp ho
  refine hc t (List.mem_filter.mp ht).1

/-- Frame runs keep every live track's and every emitted snapshot's metrics
in range. -/
lemma tRun_good :
    ∀ (fs : List Frame) (s : TState),
      (∀ t ∈ s.tracks, MetricsGood t.metrics) →
      (∀ t ∈ (tRun s fs).tracks, MetricsGood t.metrics) ∧
      (∀ outs ∈ tRunOuts s fs, ∀ o ∈ outs, MetricsGood o.metrics) := by
  intro fs
  induction fs with
  | nil => intro s h; exact ⟨h, by intro outs houts; simp [tRunOuts] at houts⟩
  | cons f fs ih =>
      intro s h
      obtain ⟨h1, h2⟩ := step_good s f.1 f.2 h
      obtain ⟨ih1, ih2⟩ := ih (stepState s f.1 f.2) h1
      refine ⟨ih1, ?_⟩
      intro outs houts
      simp only [tRunOuts, List.mem_cons] at houts
      rcases houts with rfl | houts
      · exact h2
      · exact ih2 outs houts

/-- An input within its documented ranges: expression confidences in
`[0, 1]`, nonnegative eye-aspect-ratio and blink rate. -/
def ValidBiom (inp : BiometricInput) : Prop :=
  (0 ≤ inp.neutral ∧ inp.neutral ≤ 1) ∧ (0 ≤ inp.happy ∧ inp.happy ≤ 1) ∧
  (0 ≤ inp.angry ∧ inp.angry ≤ 1) ∧ (0 ≤ inp.fearful ∧ inp.fearful ≤ 1) ∧
  (0 ≤ inp.surprised ∧ inp.surprised ≤ 1) ∧ 0 ≤ inp.ear ∧ 0 ≤ inp.blinkRate

/-- C3.  For every input sequence within documented ranges, every attention,
stress and curiosity value the system holds or reports stays in `[0, 100]`,
before filtering/smoothing and after it: the estimator's pre-filter clamped
raw values, the metrics of every state the estimator run passes through, the
reported (rounded) outputs, the raw metrics of every mapped detection, the
metrics of every live track at every point of a tracker run from the initial
state, and the metrics of every emitted snapshot.  (The clamps make the
estimator and detection bounds hold for arbitrary rational inputs, so the
range hypothesis is never even needed; it is kept to mirror the claim.) -/
theorem C3_metrics_bounded (pow15 : ℚ → ℚ) (t0 : ℚ)
    (l : List (ℚ × BiometricInput)) (fs : List Frame)
    (_hv : ∀ p ∈ l, ValidBiom p.2) :
    (∀ p ∈ l,
      (0 ≤ cm_rawAttention pow15 p.2 ∧ cm_rawAttention pow15 p.2 ≤ 100) ∧
      (0 ≤ clamp100 (cm_stressBase p.2) ∧ clamp100 (cm_stressBase p.2) ≤ 100) ∧
      (∀ a : ℚ, 0 ≤ clamp100 (cm_curiosityBase a p.2) ∧
        clamp100 (cm_curiosityBase a p.2) ≤ 100)) ∧
    (∀ l₁ l₂, l = l₁ ++ l₂ →
      (0 ≤ (cmRun pow15 (cmInit t0) l₁).attention ∧
        (cmRun pow15 (cmInit t0) l₁).attention ≤ 100) ∧
      (0 ≤ (cmRun pow15 (cmInit t0) l₁).stress ∧
        (cmRun pow15 (cmInit t0) l₁).stress ≤ 100) ∧
      (0 ≤ (cmRun pow15 (cmInit t0) l₁).curiosity ∧
        (cmRun pow15 (cmInit t0) l₁).curiosity ≤ 100)) ∧
    (∀ o ∈ cmOuts pow15 (cmInit t0) l,
      (0 ≤ o.attention ∧ o.attention ≤ 100) ∧
      (0 ≤ o.stress ∧ o.stress ≤ 100) ∧
      (0 ≤ o.curiosity ∧ o.curiosity ≤ 100)) ∧
    (∀ d : RawDet, MetricsGood (toDetObj d).metrics) ∧
    (∀ fs₁ fs₂, fs = fs₁ ++ fs₂ →
      ∀ t ∈ (tRun tInit fs₁).tracks, MetricsGood t.metrics) ∧
    (∀ outs ∈ tRunOuts tInit fs, ∀ o ∈ outs, MetricsGood o.metrics) := by
  have htInit : ∀ t ∈ tInit.tracks, MetricsGood t.metrics := by
    intro t ht
    simp [tInit] at ht
  refine ⟨?_, ?_, cmOuts_good pow15 l (cmInit t0) (cmInit_good t0),
    toDetObj_good, ?_, (tRun_good fs tInit htInit).2⟩
  · intro p _
    exact ⟨clamp100_mem _, clamp100_mem _, fun a => clamp100_mem _⟩
  · intro l₁ l₂ _
    have h := cmRun_good pow15 l₁ (cmInit t0) (cmInit_good t0)
    exact ⟨h.1, h.2.1, h.2.2.1⟩
  · intro fs₁ fs₂ _
    exact (tRun_good fs₁ tInit htInit).1

/-- Witness for C3 at a one-update estimator run and a one-frame tracker
run. -/
theorem C3_metrics_bounded_witness :
    (0 ≤ (cmRun pow15demo (cmInit 0) [(1, cmInpA)]).attention ∧
      (cmRun pow15demo (cmInit 0) [(1, cmInpA)]).attention ≤ 100) ∧
    (∀ t ∈ (tRun tInit [([⟨0, 0, 10, 10, 0, 0, 0, 0, 0, 0, 0⟩], 0)]).tracks,
      MetricsGood t.metrics) := by
  have h := C3_metrics_bounded pow15demo 0 [(1, cmInpA)]
    [([⟨0, 0, 10, 10, 0, 0, 0, 0, 0, 0, 0⟩], 0)]
    (by intro p hp
        simp only [List.mem_singleton] at hp
        subst hp
        norm_num [ValidBiom, cmInpA])
  exact ⟨(h.2.1 [(1, cmInpA)] [] rfl).1,
    h.2.2.2.2.1 [([⟨0, 0, 10, 10, 0, 0, 0, 0, 0, 0, 0⟩], 0)] [] rfl⟩

/-! ## Claims C8 and C10: the Body Language Classifier -/

/-- The classifier's seven guarded rules in their specified order (the
eighth rule is the unconditional `"Listening"` default), as
condition/label pairs over the same derived quantities the source
computes. -/
def bodyRules (metrics : Metrics) (currentBox : Box)
    (history : List FaceState) (baseline : Baseline) : List (Prop × String) :=
  let recent := recentOf history
  let avgMove := avgMoveOf recent
  let vr := (reversalCounts recent).1
  let hr := (reversalCounts recent).2
  [(avgMove > 15 ∧ metrics.stress > 60, "Fidgeting"),
   (currentBox.w > baseline.w * (12/10) ∧ metrics.attention > 50, "Leaning Forward"),
   (currentBox.y > baseline.y + baseline.w * (3/10) ∧ metrics.attention < 40, "Slouching"),
   (vr ≥ 2 ∧ metrics.attention > 60, "Nodding"),
   (hr ≥ 2 ∧ metrics.stress > 50, "Head Shaking"),
   (metrics.stress > 75 ∧ avgMove < 2, "Arms Crossed"),
   (metrics.attention > 80, "Engaged")]

/-- C8.  The classifier returns `"Listening"` whenever the history has fewer
than 3 entries; with at least 3 entries it evaluates its eight rules in the
specified order with first-match-wins precedence: whenever rule `i` is
satisfied and every earlier rule is not, the result is rule `i`'s label, and
when none of the seven guarded rules is satisfied the default `"Listening"`
is returned. -/
theorem C8_body_language_precedence (metrics : Metrics) (currentBox : Box)
    (history : List FaceState) (baseline : Baseline) :
    (history.length < 3 →
      determineBodyLanguage metrics currentBox history baseline = "Listening") ∧
    (3 ≤ history.length → ∀ i, i < 7 →
      ((bodyRules metrics currentBox history baseline).getD i (False, "")).1 →
      (∀ j, j < i →
        ¬ ((bodyRules metrics currentBox history baseline).getD j (False, "")).1) →
      determineBodyLanguage metrics currentBox history baseline
        = ((bodyRules metrics currentBox history baseline).getD i (False, "")).2) ∧
    (3 ≤ history.length →
      (∀ j, j < 7 →
        ¬ ((bodyRules metrics currentBox history baseline).getD j (False, "")).1) →
      determineBodyLanguage metrics currentBox history baseline = "Listening") := by
  refine ⟨?_, ?_, ?_⟩
  · intro h
    unfold determineBodyLanguage
    rw [if_pos h]
  · intro h3 i hi hsat hprev
    have hlen : ¬ history.length < 3 := not_lt.mpr h3
    interval_cases i
    · simp only [bodyRules, List.getD_cons_zero, List.getD_cons_succ] at hsat ⊢
      simp only [determineBodyLanguage]
      rw [if_neg hlen, if_pos hsat]
    · have hp0 := hprev 0 (by norm_num)
      simp only [bodyRules, List.getD_cons_zero, List.getD_cons_succ] at hsat hp0 ⊢
      simp only [determineBodyLanguage]
      rw [if_neg hlen, if_neg hp0, if_pos hsat]
    · have hp0 := hprev 0 (by norm_num)
      have hp1 := hprev 1 (by norm_num)
      simp only [bodyRules, List.getD_cons_zero, List.getD_cons_succ] at hsat hp0 hp1 ⊢
      simp only [determineBodyLanguage]
      rw [if_neg hlen, if_neg hp0, if_neg hp1, if_pos hsat]
    · have hp0 := hprev 0 (by norm_num)
      have hp1 := hprev 1 (by norm_num)
      have hp2 := hprev 2 (by norm_num)
      simp only [bodyRules, List.getD_cons_zero, List.getD_cons_succ] at hsat hp0 hp1 hp2 ⊢
      simp only [determineBodyLanguage]
      rw [if_neg hlen, if_neg hp0, if_neg hp1, if_neg hp2, if_pos hsat]
    · have hp0 := hprev 0 (by norm_num)
      have hp1 := hprev 1 (by norm_num)
      have hp2 := hprev 2 (by norm_num)
      have hp3 := hprev 3 (by norm_num)
      simp only [bodyRules, List.getD_cons_zero, List.getD_cons_succ] at hsat hp0 hp1 hp2 hp3 ⊢
      simp only [determineBodyLanguage]
      rw [if_neg hlen, if_neg hp0, if_neg hp1, if_neg hp2, if_neg hp3, if_pos hsat]
    · have hp0 := hprev 0 (by norm_num)
      have hp1 := hprev 1 (by norm_num)
      have hp2 := hprev 2 (by norm_num)
      have hp3 := hprev 3 (by norm_num)
      have hp4 := hprev 4 (by norm_num)
      simp only [bodyRules, List.getD_cons_zero, List.getD_cons_succ] at hsat hp0 hp1 hp2 hp3 hp4 ⊢
      simp only [determineBodyLanguage]
      rw [if_neg hlen, if_neg hp0, if_neg hp1, if_neg hp2, if_neg hp3, if_neg hp4, if_pos hsat]
    · have hp0 := hprev 0 (by norm_num)
      have hp1 := hprev 1 (by norm_num)
      have hp2 := hprev 2 (by norm_num)
      have hp3 := hprev 3 (by norm_num)
      have hp4 := hprev 4 (by norm_num)
      have hp5 := hprev 5 (by norm_num)
      simp only [bodyRules, List.getD_cons_zero, List.getD_cons_succ] at hsat hp0 hp1 hp2 hp3 hp4 hp5 ⊢
      simp only [determineBodyLanguage]
      rw [if_neg hlen, if_neg hp0, if_neg hp1, if_neg hp2, if_neg hp3, if_neg hp4, if_neg hp5, if_pos hsat]
  · intro h3 hall
    have hlen : ¬ history.length < 3 := not_lt.mpr h3
    have hp0 := hall 0 (by norm_num)
    have hp1 := hall 1 (by norm_num)
    have hp2 := hall 2 (by norm_num)
    have hp3 := hall 3 (by norm_num)
    have hp4 := hall 4 (by norm_num)
    have hp5 := hall 5 (by norm_num)
    have hp6 := hall 6 (by norm_num)
    simp only [bodyRules, List.getD_cons_zero, List.getD_cons_succ]
      at hp0 hp1 hp2 hp3 hp4 hp5 hp6
    simp only [determineBodyLanguage]
    rw [if_neg hlen, if_neg hp0, if_neg hp1, if_neg hp2, if_neg hp3,
      if_neg hp4, if_neg hp5, if_neg hp6]

/-- Witness for C8: a 3-entry history and metrics satisfying both the
Leaning-Forward rule (rule 2) and the Engaged rule (rule 7) while rule 1
fails; the earliest satisfied rule wins. -/
theorem C8_body_language_witness :
    determineBodyLanguage ⟨85, 0, 0⟩ ⟨0, 0, 13, 10⟩
      [⟨0, 0, 10, 10, 0⟩, ⟨0, 5, 10, 10, 1⟩, ⟨0, 0, 10, 10, 2⟩] ⟨10, 0⟩
      = "Leaning Forward" := by
  have h := (C8_body_language_precedence ⟨85, 0, 0⟩ ⟨0, 0, 13, 10⟩
      [⟨0, 0, 10, 10, 0⟩, ⟨0, 5, 10, 10, 1⟩, ⟨0, 0, 10, 10, 2⟩] ⟨10, 0⟩).2.1
    (by norm_num) 1 (by norm_num)
    (by norm_num [bodyRules, List.getD_cons_zero, List.getD_cons_succ])
    (by intro j hj
        interval_cases j
        norm_num [bodyRules, List.getD_cons_zero, List.getD_cons_succ,
          avgMoveOf, recentOf])
  simpa [bodyRules, List.getD_cons_zero, List.getD_cons_succ] using h

/-- C10.  With exactly 3 history entries the reversal counters are never
computed (the guard requires at least 4 recent entries), so both stay zero
and the Nodding and Head-Shaking rules can never fire, whatever the metrics,
box, baseline — and in particular even when the single consecutive triple of
the history reverses direction. -/
theorem C10_short_history_no_reversals (metrics : Metrics) (currentBox : Box)
    (history : List FaceState) (baseline : Baseline)
    (h3 : history.length = 3) :
    reversalCounts (recentOf history) = (0, 0) ∧
    determineBodyLanguage metrics currentBox history baseline ≠ "Nodding" ∧
    determineBodyLanguage metrics currentBox history baseline ≠ "Head Shaking" := by
  have hrec : (recentOf history).length = 3 := by
    unfold recentOf
    rw [List.length_drop, h3]
  have hrev : reversalCounts (recentOf history) = (0, 0) := by
    unfold reversalCounts
    rw [if_neg (by omega)]
  refine ⟨hrev, ?_, ?_⟩ <;>
  · simp only [determineBodyLanguage]
    rw [if_neg (by omega : ¬ history.length < 3)]
    simp only [hrev]
    split_ifs <;> simp_all

/-- Witness for C10 at a 3-entry history whose single consecutive triple
does reverse vertical direction (y goes 0, 5, 0) and metrics that would
satisfy the Nodding rule if the counter were computed. -/
theorem C10_short_history_witness :
    reversalCounts (recentOf
      [⟨0, 0, 10, 10, 0⟩, ⟨0, 5, 10, 10, 1⟩, ⟨0, 0, 10, 10, 2⟩]) = (0, 0) ∧
    determineBodyLanguage ⟨100, 100, 50⟩ ⟨0, 0, 10, 10⟩
      [⟨0, 0, 10, 10, 0⟩, ⟨0, 5, 10, 10, 1⟩, ⟨0, 0, 10, 10, 2⟩] ⟨10, 0⟩
      ≠ "Nodding" := by
  have h := C10_short_history_no_reversals ⟨100, 100, 50⟩ ⟨0, 0, 10, 10⟩
    [⟨0, 0, 10, 10, 0⟩, ⟨0, 5, 10, 10, 1⟩, ⟨0, 0, 10, 10, 2⟩] ⟨10, 0⟩
    (by norm_num)
  exact ⟨h.1, h.2.1⟩

/-! ## Claims C1, C4, C5, C6: structural lemmas about the matching pass -/

/-- Index of a member. -/
lemma mem_getElemIdx {α : Type} {l : List α} {a : α} (h : a ∈ l) :
    ∃ i : ℕ, l[i]? = some a := by
  obtain ⟨i, hi, he⟩ := List.getElem_of_mem h
  exact ⟨i, by rw [List.getElem?_eq_getElem hi, he]⟩

/-- Overwriting an entry with one of equal image leaves the mapped list
unchanged. -/
lemma map_set_same {α β : Type} (f : α → β) :
    ∀ (l : List α) (i : ℕ) (a b : α), l[i]? = some a → f b = f a →
      (l.set i b).map f = l.map f := by
  intro l
  induction l with
  | nil => intro i a b h _; simp at h
  | cons x xs ih =>
      intro i a b h hf
      cases i with
      | zero =>
          simp only [List.getElem?_cons_zero, Option.some_inj] at h
          subst h
          simp [List.set, hf]
      | succ i =>
          simp only [List.getElem?_cons_succ] at h
          simp [List.set, ih i a b h hf]

/-- One matching iteration does not change the identity list of the
tracks. -/
lemma matchStep_ids (now : ℚ) (acc : List TrackedFace × List (Option ℕ))
    (d : DetObj) : trackIds (matchStep now acc d).1 = trackIds acc.1 := by
  cases hbm : bestMatchIdx acc.1 d.centerX d.centerY with
  | none => simp [matchStep, hbm]
  | some i =>
      cases hget : acc.1[i]? with
      | none => simp [matchStep, hbm, hget]
      | some t =>
          have h1 : (matchStep now acc d).1 = acc.1.set i (updateTrack t d now) := by
            simp [matchStep, hbm, hget]
          rw [h1]
          exact map_set_same _ acc.1 i t (updateTrack t d now) hget rfl

/-- One matching iteration appends exactly one assignment: `none`, or the
claimed identity of a track of the current list. -/
lemma matchStep_assigns (now : ℚ) (acc : List TrackedFace × List (Option ℕ))
    (d : DetObj) :
    ∃ x, (matchStep now acc d).2 = acc.2 ++ [x] ∧
      (x = none ∨ ∃ tid, x = some tid ∧ tid ∈ trackIds acc.1) := by
  cases hbm : bestMatchIdx acc.1 d.centerX d.centerY with
  | none => exact ⟨none, by simp [matchStep, hbm], Or.inl rfl⟩
  | some i =>
      cases hget : acc.1[i]? with
      | none => exact ⟨none, by simp [matchStep, hbm, hget], Or.inl rfl⟩
      | some t =>
          refine ⟨some t.id, by simp [matchStep, hbm, hget], Or.inr ⟨t.id, rfl, ?_⟩⟩
          exact List.mem_map_of_mem _ (List.getElem?_mem hget)

/-- The matching pass never changes the identity list of the tracks. -/
lemma matchFold_ids (now : ℚ) :
    ∀ (ds : List DetObj) (acc : List TrackedFace × List (Option ℕ)),
      trackIds (ds.foldl (matchStep now) acc).1 = trackIds acc.1 := by
  intro ds
  induction ds with
  | nil => intro acc; rfl
  | cons d ds ih =>
      intro acc
      rw [List.foldl_cons, ih (matchStep now acc d), matchStep_ids]

/-- Assignments already accumulated survive the rest of the pass. -/
lemma matchFold_assigns_mono (now : ℚ) :
    ∀ (ds : List DetObj) (acc : List TrackedFace × List (Option ℕ)),
      ∀ a ∈ acc.2, a ∈ (ds.foldl (matchStep now) acc).2 := by
  intro ds
  induction ds with
  | nil => intro acc a ha; exact ha
  | cons d ds ih =>
      intro acc a ha
      obtain ⟨x, hx, -⟩ := matchStep_assigns now acc d
      refine ih (matchStep now acc d) a ?_
      rw [hx]
      exact List.mem_append_left _ ha

/-- The pass emits one assignment per detection. -/
lemma matchFold_assigns_length (now : ℚ) :
    ∀ (ds : List DetObj) (acc : List TrackedFace × List (Option ℕ)),
      (ds.foldl (matchStep now) acc).2.length = acc.2.length + ds.length := by
  intro ds
  induction ds with
  | nil => intro acc; simp
  | cons d ds ih =>
      intro acc
      obtain ⟨x, hx, -⟩ := matchStep_assigns now acc d
      rw [List.foldl_cons, ih (matchStep now acc d), hx]
      simp
      omega

/-- Every assignment the pass emits is `none`, was already accumulated, or
claims the identity of one of the tracks. -/
lemma matchFold_assigns_mem (now : ℚ) :
    ∀ (ds : List DetObj) (acc : List TrackedFace × List (Option ℕ)),
      ∀ a ∈ (ds.foldl (matchStep now) acc).2,
        a ∈ acc.2 ∨ a = none ∨ ∃ tid, a = some tid ∧ tid ∈ trackIds acc.1 := by
  intro ds
  induction ds with
  | nil => intro acc a ha; exact Or.inl ha
  | cons d ds ih =>
      intro acc a ha
      obtain ⟨x, hx, hxor⟩ := matchStep_assigns now acc d
      rcases ih (matchStep now acc d) a ha with h | h | ⟨tid, rfl, htid⟩
      · rw [hx] at h
        rcases List.mem_append.mp h with h | h
        · exact Or.inl h
        · rcases List.mem_singleton.mp h with rfl
          rcases hxor with rfl | ⟨tid, rfl, htid⟩
          · exact Or.inr (Or.inl rfl)
          · exact Or.inr (Or.inr ⟨tid, rfl, htid⟩)
      · exact Or.inr (Or.inl h)
      · rw [matchStep_ids] at htid
        exact Or.inr (Or.inr ⟨tid, rfl, htid⟩)

/-- A track that no assignment of the pass claims is left exactly as it
was, at its index. -/
lemma matchFold_unmatched (now : ℚ) :
    ∀ (ds : List DetObj) (acc : List TrackedFace × List (Option ℕ))
      (k : ℕ) (t : TrackedFace), acc.1[k]? = some t →
      (∀ a ∈ (ds.foldl (matchStep now) acc).2, a ≠ some t.id) →
      ((ds.foldl (matchStep now) acc).1)[k]? = some t := by
  intro ds
  induction ds with
  | nil => intro acc k t hk _; exact hk
  | cons d ds ih =>
      intro acc k t hk hun
      rw [List.foldl_cons] at hun ⊢
      cases hbm : bestMatchIdx acc.1 d.centerX d.centerY with
      | none =>
          have h1 : matchStep now acc d = (acc.1, acc.2 ++ [none]) := by
            simp [matchStep, hbm]
          exact ih _ k t (by rw [h1]; exact hk) hun
      | some i =>
          cases hget : acc.1[i]? with
          | none =>
              have h1 : matchStep now acc d = (acc.1, acc.2 ++ [none]) := by
                simp [matchStep, hbm, hget]
              exact ih _ k t (by rw [h1]; exact hk) hun
          | some u =>
              have h1 : matchStep now acc d
                  = (acc.1.set i (updateTrack u d now), acc.2 ++ [some u.id]) := by
                simp [matchStep, hbm, hget]
              by_cases hik : i = k
              · subst hik
                rw [hget] at hk
                injection hk with hk
                exfalso
                refine hun (some t.id) ?_ rfl
                refine matchFold_assigns_mono now ds (matchStep now acc d)
                  (some t.id) ?_
                rw [h1, hk]
                exact List.mem_append_right _ (List.mem_singleton.mpr rfl)
              · refine ih _ k t ?_ hun
                rw [h1]
                simpa using (List.getElem?_set_ne hik).trans hk

/-- The creation pass appends the new tracks after the existing ones: the
result is the old list followed by a block of fresh tracks whose identities
are exactly the consecutive integers from the old counter to the new one and
whose missing counters are zero, each carrying its detection's box
verbatim. -/
lemma createPhase_decomp (now : ℚ) :
    ∀ (ps : List (DetObj × Option ℕ)) (ts : List TrackedFace) (nid : ℕ),
      ∃ new, (createPhase ts nid ps now).1 = ts ++ new ∧
        (createPhase ts nid ps now).2 = nid + new.length ∧
        trackIds new = List.range' nid new.length ∧
        ∀ t ∈ new, t.missingFrames = 0 := by
  intro ps
  induction ps with
  | nil =>
      intro ts nid
      exact ⟨[], by simp [createPhase], by simp [createPhase], rfl, by simp⟩
  | cons p ps ih =>
      intro ts nid
      match hp : p.2 with
      | some j =>
          have h1 : createPhase ts nid (p :: ps) now = createPhase ts nid ps now := by
            unfold createPhase
            simp [List.foldl_cons, hp]
          rw [h1]
          exact ih ts nid
      | none =>
          have h1 : createPhase ts nid (p :: ps) now
              = createPhase (ts ++ [newTrack nid p.1 now]) (nid + 1) ps now := by
            unfold createPhase
            simp [List.foldl_cons, hp]
          rw [h1]
          obtain ⟨new, e1, e2, e3, e4⟩ := ih (ts ++ [newTrack nid p.1 now]) (nid + 1)
          refine ⟨newTrack nid p.1 now :: new, ?_, ?_, ?_, ?_⟩
          · rw [e1]
            simp
          · rw [e2]
            simp
            omega
          · show (newTrack nid p.1 now).id :: trackIds new = _
            rw [e3]
            rfl
          · intro t ht
            rcases List.mem_cons.mp ht with rfl | ht
            · rfl
            · exact e4 t ht

/-- A new track of the creation pass carries its detection's box: the track
created for the unmatched detection at position `j` of the pass's input. -/
lemma createPhase_creates (now : ℚ) :
    ∀ (ps : List (DetObj × Option ℕ)) (ts : List TrackedFace) (nid : ℕ)
      (j : ℕ) (d : DetObj), ps[j]? = some (d, none) →
      ∃ t ∈ (createPhase ts nid ps now).1,
        t.box = d.box ∧ t.metrics = d.metrics ∧ nid ≤ t.id ∧
        t.missingFrames = 0 := by
  intro ps
  induction ps with
  | nil => intro ts nid j d h; simp at h
  | cons p ps ih =>
      intro ts nid j d h
      cases j with
      | zero =>
          simp only [List.getElem?_cons_zero, Option.some_inj] at h
          subst h
          have h1 : createPhase ts nid ((d, none) :: ps) now
              = createPhase (ts ++ [newTrack nid d now]) (nid + 1) ps now := by
            unfold createPhase
            simp [List.foldl_cons]
          rw [h1]
          obtain ⟨new, e1, -, -, -⟩ := createPhase_decomp now ps
            (ts ++ [newTrack nid d now]) (nid + 1)
          refine ⟨newTrack nid d now, ?_, rfl, rfl, le_refl _, rfl⟩
          rw [e1]
          exact List.mem_append_left _ (List.mem_append_right _
            (List.mem_singleton.mpr rfl))
      | succ j =>
          simp only [List.getElem?_cons_succ] at h
          match hp : p.2 with
          | some i =>
              have h1 : createPhase ts nid (p :: ps) now
                  = createPhase ts nid ps now := by
                unfold createPhase
                simp [List.foldl_cons, hp]
              rw [h1]
              exact ih ts nid j d h
          | none =>
              have h1 : createPhase ts nid (p :: ps) now
                  = createPhase (ts ++ [newTrack nid p.1 now]) (nid + 1) ps now := by
                unfold createPhase
                simp [List.foldl_cons, hp]
              rw [h1]
              obtain ⟨t, ht, hb, hm, hle, hmf⟩ := ih
                (ts ++ [newTrack nid p.1 now]) (nid + 1) j d h
              exact ⟨t, ht, hb, hm, by omega, hmf⟩

/-- The matched track list of one frame keeps exactly the pre-frame
identity list. -/
lemma matched_ids (s : TState) (dets : List RawDet) (now : ℚ) :
    trackIds (matchPhase
      (s.tracks.map (fun t => { t with missingFrames := t.missingFrames + 1 }))
      (dets.map toDetObj) now).1 = trackIds s.tracks := by
  unfold matchPhase
  rw [matchFold_ids]
  show trackIds (s.tracks.map _) = _
  simp only [trackIds, List.map_map]
  rfl

/-- One frame of the tracker, decomposed: the post-frame track list is the
matched list followed by the block of freshly created tracks, pruned by the
missing-counter test; the counter advances by the number of creations, the
fresh identities are the consecutive integers starting at the old counter,
fresh tracks have missing counter zero, and the emitted snapshots are the
snapshots of exactly the post-frame tracks. -/
lemma stepFull_decomp (s : TState) (dets : List RawDet) (now : ℚ) :
    ∃ new : List TrackedFace,
      (stepState s dets now).tracks
        = ((matchPhase
            (s.tracks.map (fun t => { t with missingFrames := t.missingFrames + 1 }))
            (dets.map toDetObj) now).1 ++ new).filter
            (fun t => decide (t.missingFrames ≤ MAX_MISSING_FRAMES)) ∧
      (stepState s dets now).nextId = s.nextId + new.length ∧
      trackIds new = List.range' s.nextId new.length ∧
      (∀ t ∈ new, t.missingFrames = 0) ∧
      stepOut s dets now = (stepState s dets now).tracks.map snapshotOf := by
  obtain ⟨new, e1, e2, e3, e4⟩ := createPhase_decomp now
    ((dets.map toDetObj).zip (matchPhase
      (s.tracks.map (fun t => { t with missingFrames := t.missingFrames + 1 }))
      (dets.map toDetObj) now).2)
    (matchPhase
      (s.tracks.map (fun t => { t with missingFrames := t.missingFrames + 1 }))
      (dets.map toDetObj) now).1
    s.nextId
  refine ⟨new, ?_, ?_, e3, e4, ?_⟩
  · show ((createPhase _ _ _ _).1.filter _) = _
    rw [e1]
  · show (createPhase _ _ _ _).2 = _
    rw [e2]
  · rfl

/-- The identities the snapshots of a frame carry are exactly the
identities of the post-frame track list. -/
lemma snapIds_stepOut (s : TState) (dets : List RawDet) (now : ℚ) :
    snapIds (stepOut s dets now) = trackIds (stepState s dets now).tracks := by
  obtain ⟨new, -, -, -, -, e5⟩ := stepFull_decomp s dets now
  rw [e5]
  simp only [snapIds, trackIds, List.map_map]
  rfl

/-- Every post-frame identity is a pre-frame identity or a fresh one at or
beyond the pre-frame counter. -/
lemma step_ids_sub (s : TState) (dets : List RawDet) (now : ℚ) :
    ∀ t ∈ (stepState s dets now).tracks,
      t.id ∈ trackIds s.tracks ∨ s.nextId ≤ t.id := by
  obtain ⟨new, e1, -, e3, -, -⟩ := stepFull_decomp s dets now
  intro t ht
  rw [e1] at ht
  have ht' := (List.mem_filter.mp ht).1
  rcases List.mem_append.mp ht' with h | h
  · left
    rw [← matched_ids s dets now]
    exact List.mem_map_of_mem _ h
  · right
    have : t.id ∈ trackIds new := List.mem_map_of_mem _ h
    rw [e3] at this
    exact (List.mem_range'_1.mp this).1

/-- The identity counter never decreases. -/
lemma step_nextId_mono (s : TState) (dets : List RawDet) (now : ℚ) :
    s.nextId ≤ (stepState s dets now).nextId := by
  obtain ⟨new, -, e2, -, -, -⟩ := stepFull_decomp s dets now
  omega

/-- The live identities stay below the counter. -/
lemma step_bound (s : TState) (dets : List RawDet) (now : ℚ)
    (hb : ∀ u ∈ s.tracks, u.id < s.nextId) :
    ∀ u ∈ (stepState s dets now).tracks, u.id < (stepState s dets now).nextId := by
  obtain ⟨new, e1, e2, e3, -, -⟩ := stepFull_decomp s dets now
  intro u hu
  rw [e1] at hu
  have hu' := (List.mem_filter.mp hu).1
  rw [e2]
  rcases List.mem_append.mp hu' with h | h
  · have : u.id ∈ trackIds s.tracks := by
      rw [← matched_ids s dets now]
      exact List.mem_map_of_mem _ h
    obtain ⟨v, hv, he⟩ := List.mem_map.mp this
    have := hb v hv
    omega
  · have : u.id ∈ trackIds new := List.mem_map_of_mem _ h
    rw [e3] at this
    have := (List.mem_range'_1.mp this).2
    omega

/-- Distinctness of the live identities is preserved. -/
lemma step_nodup (s : TState) (dets : List RawDet) (now : ℚ)
    (hb : ∀ u ∈ s.tracks, u.id < s.nextId)
    (hnd : (trackIds s.tracks).Nodup) :
    (trackIds (stepState s dets now).tracks).Nodup := by
  obtain ⟨new, e1, -, e3, -, -⟩ := stepFull_decomp s dets now
  have happ : (trackIds ((matchPhase
      (s.tracks.map (fun t => { t with missingFrames := t.missingFrames + 1 }))
      (dets.map toDetObj) now).1 ++ new)).Nodup := by
    show ((_ ++ new).map _).Nodup
    rw [List.map_append]
    refine List.Nodup.append ?_ ?_ ?_
    · show (trackIds _).Nodup
      rw [matched_ids]
      exact hnd
    · show (trackIds new).Nodup
      rw [e3]
      exact List.nodup_range' _ _
    · intro a ha ha'
      have ha2 : a ∈ trackIds s.tracks := by
        rw [← matched_ids s dets now]
        exact ha
      obtain ⟨v, hv, he⟩ := List.mem_map.mp ha2
      have hlt := hb v hv
      have ha3 : a ∈ trackIds new := ha'
      rw [e3] at ha3
      have := (List.mem_range'_1.mp ha3).1
      omega
  rw [e1]
  exact ((List.filter_sublist _).map _).nodup happ

/-- An identity below the counter that is not live stays dead over one
frame. -/
lemma step_dead (s : TState) (dets : List RawDet) (now : ℚ) (i : ℕ)
    (hlt : i < s.nextId) (hdead : i ∉ trackIds s.tracks) :
    i ∉ trackIds (stepState s dets now).tracks := by
  intro hmem
  obtain ⟨v, hv, he⟩ := List.mem_map.mp hmem
  rcases step_ids_sub s dets now v hv with h | h
  · rw [he] at h
    exact hdead h
  · omega

/-- Running a concatenation is running the parts in order. -/
lemma tRun_append (s : TState) (fs1 fs2 : List Frame) :
    tRun s (fs1 ++ fs2) = tRun (tRun s fs1) fs2 :=
  List.foldl_append _ _ _ _

/-- The identity invariants carried by every run: live identities stay
below the counter and pairwise distinct, the counter never decreases, and
every live identity either was live at the start or is at or beyond the
start counter. -/
lemma tRun_inv :
    ∀ (fs : List Frame) (s : TState),
      (∀ u ∈ s.tracks, u.id < s.nextId) → (trackIds s.tracks).Nodup →
      (∀ u ∈ (tRun s fs).tracks, u.id < (tRun s fs).nextId) ∧
      (trackIds (tRun s fs).tracks).Nodup ∧
      s.nextId ≤ (tRun s fs).nextId ∧
      (∀ t ∈ (tRun s fs).tracks, t.id ∈ trackIds s.tracks ∨ s.nextId ≤ t.id) := by
  intro fs
  induction fs with
  | nil => intro s hb hnd; exact ⟨hb, hnd, le_refl _, fun t ht => Or.inl (List.mem_map_of_mem _ ht)⟩
  | cons f fs ih =>
      intro s hb hnd
      have hstep : tRun s (f :: fs) = tRun (stepState s f.1 f.2) fs := rfl
      have hb' := step_bound s f.1 f.2 hb
      have hnd' := step_nodup s f.1 f.2 hb hnd
      obtain ⟨i1, i2, i3, i4⟩ := ih (stepState s f.1 f.2) hb' hnd'
      rw [hstep]
      refine ⟨i1, i2, le_trans (step_nextId_mono s f.1 f.2) i3, ?_⟩
      intro t ht
      rcases i4 t ht with h | h
      · obtain ⟨v, hv, he⟩ := List.mem_map.mp h
        rcases step_ids_sub s f.1 f.2 v hv with h2 | h2
        · left
          rw [← he]
          exact h2
        · right
          omega
      · right
        exact le_trans (step_nextId_mono s f.1 f.2) h

/-- A dead identity below the counter never comes back, in live tracks or
in emitted snapshots. -/
lemma tRun_dead :
    ∀ (fs : List Frame) (s : TState) (i : ℕ),
      (∀ u ∈ s.tracks, u.id < s.nextId) → i < s.nextId →
      i ∉ trackIds s.tracks →
      i ∉ trackIds (tRun s fs).tracks ∧
      ∀ outs ∈ tRunOuts s fs, i ∉ snapIds outs := by
  intro fs
  induction fs with
  | nil =>
      intro s i _ _ hdead
      exact ⟨hdead, by intro outs h; simp [tRunOuts] at h⟩
  | cons f fs ih =>
      intro s i hb hlt hdead
      have hd' := step_dead s f.1 f.2 i hlt hdead
      have hb' := step_bound s f.1 f.2 hb
      have hlt' := lt_of_lt_of_le hlt (step_nextId_mono s f.1 f.2)
      obtain ⟨j1, j2⟩ := ih (stepState s f.1 f.2) i hb' hlt' hd'
      refine ⟨j1, ?_⟩
      intro outs houts
      simp only [tRunOuts, List.mem_cons] at houts
      rcases houts with rfl | houts
      · rw [snapIds_stepOut]
        exact hd'
      · exact j2 outs houts

/-- C6.  From the initial state, track identities are pairwise distinct in
every reachable state and all lie strictly below the identity counter; a
track live after more frames but not live earlier carries an identity at or
beyond the earlier counter (so every creation receives an identity strictly
larger than all previously assigned ones); and an identity that has been
retired (allocated before the counter but no longer live) is never live
again, however the session continues. -/
theorem C6_track_identities (fs : List Frame) :
    (trackIds (tRun tInit fs).tracks).Nodup ∧
    (∀ t ∈ (tRun tInit fs).tracks, t.id < (tRun tInit fs).nextId) ∧
    (∀ (fs₂ : List Frame) (t : TrackedFace),
      t ∈ (tRun tInit (fs ++ fs₂)).tracks →
      t.id ∉ trackIds (tRun tInit fs).tracks →
      (tRun tInit fs).nextId ≤ t.id) ∧
    (∀ (fs₂ fs₃ : List Frame) (i : ℕ),
      i < (tRun tInit (fs ++ fs₂)).nextId →
      i ∉ trackIds (tRun tInit (fs ++ fs₂)).tracks →
      i ∉ trackIds (tRun tInit ((fs ++ fs₂) ++ fs₃)).tracks) := by
  have hb0 : ∀ u ∈ tInit.tracks, u.id < tInit.nextId := by
    intro u hu
    simp [tInit] at hu
  have hnd0 : (trackIds tInit.tracks).Nodup := by
    simp [tInit, trackIds]
  obtain ⟨h1, h2, h3, h4⟩ := tRun_inv fs tInit hb0 hnd0
  refine ⟨h2, h1, ?_, ?_⟩
  · intro fs₂ t ht hnot
    rw [tRun_append] at ht
    obtain ⟨g1, g2, g3, g4⟩ := tRun_inv fs₂ (tRun tInit fs) h1 h2
    rcases g4 t ht with h | h
    · exact absurd h hnot
    · exact h
  · intro fs₂ fs₃ i hlt hdead
    rw [tRun_append]
    obtain ⟨g1, g2, g3, g4⟩ := tRun_inv (fs ++ fs₂) tInit hb0 hnd0
    exact (tRun_dead fs₃ (tRun tInit (fs ++ fs₂)) i g1 hlt hdead).1

/-- The missing counter counts consecutive unmatched frames: a live track
that matches no detection in a frame and still survives the prune comes out
with its counter incremented by exactly one (aging happens once per frame;
a match would have reset it to zero in `updateTrack`). -/
lemma step_unmatched_increment (s : TState) (dets : List RawDet) (now : ℚ)
    (t : TrackedFace) (ht : t ∈ s.tracks)
    (hunm : ∀ a ∈ stepAssigns s dets now, a ≠ some t.id)
    (hlow : t.missingFrames + 1 ≤ MAX_MISSING_FRAMES) :
    ({ t with missingFrames := t.missingFrames + 1 } : TrackedFace)
      ∈ (stepState s dets now).tracks := by
  obtain ⟨k, hk⟩ := mem_getElemIdx ht
  have haged : (s.tracks.map
      (fun u => { u with missingFrames := u.missingFrames + 1 }))[k]?
      = some { t with missingFrames := t.missingFrames + 1 } := by
    rw [List.getElem?_map, hk]
    rfl
  have hunm' : ∀ a ∈ ((dets.map toDetObj).foldl (matchStep now)
      (s.tracks.map (fun u => { u with missingFrames := u.missingFrames + 1 }),
        ([] : List (Option ℕ)))).2,
      a ≠ some ({ t with missingFrames := t.missingFrames + 1 } : TrackedFace).id := by
    intro a ha
    exact hunm a ha
  have hmat := matchFold_unmatched now (dets.map toDetObj)
    (s.tracks.map (fun u => { u with missingFrames := u.missingFrames + 1 }), [])
    k { t with missingFrames := t.missingFrames + 1 } haged hunm'
  have hmem : ({ t with missingFrames := t.missingFrames + 1 } : TrackedFace)
      ∈ (matchPhase
        (s.tracks.map (fun u => { u with missingFrames := u.missingFrames + 1 }))
        (dets.map toDetObj) now).1 := List.getElem?_mem hmat
  obtain ⟨new, e1, -, -, -, -⟩ := stepFull_decomp s dets now
  rw [e1]
  refine List.mem_filter.mpr ⟨List.mem_append_left _ hmem, ?_⟩
  simpa using hlow

/-- C5.  A live track whose missing counter has already reached
`MAX_MISSING_FRAMES` and which matches no detection in the current frame —
that is, a track that has now gone `MAX_MISSING_FRAMES + 1` consecutive
frames without a match, since the counter increments by exactly one per
unmatched frame (`step_unmatched_increment`) and resets on a match — is
removed before the frame's snapshots are emitted: its identity is absent
from this frame's emitted snapshot set and from the post-frame track list,
and (identities being never reused) from every later state and every later
emitted snapshot set; moreover no emitted track ever carries a missing
counter above `MAX_MISSING_FRAMES`. -/
theorem C5_track_retirement (s : TState) (dets : List RawDet) (now : ℚ)
    (t : TrackedFace)
    (ht : t ∈ s.tracks) (hm : MAX_MISSING_FRAMES ≤ t.missingFrames)
    (hunm : ∀ a ∈ stepAssigns s dets now, a ≠ some t.id)
    (hb : ∀ u ∈ s.tracks, u.id < s.nextId)
    (hnd : (trackIds s.tracks).Nodup) :
    t.id ∉ snapIds (stepOut s dets now) ∧
    t.id ∉ trackIds (stepState s dets now).tracks ∧
    (∀ u ∈ (stepState s dets now).tracks,
      u.missingFrames ≤ MAX_MISSING_FRAMES) ∧
    ∀ fs : List Frame,
      t.id ∉ trackIds (tRun (stepState s dets now) fs).tracks ∧
      ∀ outs ∈ tRunOuts (stepState s dets now) fs, t.id ∉ snapIds outs := by
  obtain ⟨k, hk⟩ := mem_getElemIdx ht
  have haged : (s.tracks.map
      (fun u => { u with missingFrames := u.missingFrames + 1 }))[k]?
      = some { t with missingFrames := t.missingFrames + 1 } := by
    rw [List.getElem?_map, hk]
    rfl
  have hunm' : ∀ a ∈ ((dets.map toDetObj).foldl (matchStep now)
      (s.tracks.map (fun u => { u with missingFrames := u.missingFrames + 1 }),
        ([] : List (Option ℕ)))).2,
      a ≠ some ({ t with missingFrames := t.missingFrames + 1 } : TrackedFace).id := by
    intro a ha
    exact hunm a ha
  have hmat := matchFold_unmatched now (dets.map toDetObj)
    (s.tracks.map (fun u => { u with missingFrames := u.missingFrames + 1 }), [])
    k { t with missingFrames := t.missingFrames + 1 } haged hunm'
  have hmem_aged : ({ t with missingFrames := t.missingFrames + 1 } : TrackedFace)
      ∈ (matchPhase
        (s.tracks.map (fun u => { u with missingFrames := u.missingFrames + 1 }))
        (dets.map toDetObj) now).1 := List.getElem?_mem hmat
  have hnodup_m : ((matchPhase
      (s.tracks.map (fun u => { u with missingFrames := u.missingFrames + 1 }))
      (dets.map toDetObj) now).1.map (fun u => u.id)).Nodup := by
    show (trackIds _).Nodup
    rw [matched_ids]
    exact hnd
  obtain ⟨new, e1, e2, e3, e4, e5⟩ := stepFull_decomp s dets now
  have hnotin : t.id ∉ trackIds (stepState s dets now).tracks := by
    intro hmem
    obtain ⟨u, hu, he⟩ := List.mem_map.mp hmem
    rw [e1] at hu
    have hfil := List.mem_filter.mp hu
    rcases List.mem_append.mp hfil.1 with h | h
    · have hu_eq : u = { t with missingFrames := t.missingFrames + 1 } :=
        List.inj_on_of_nodup_map hnodup_m h hmem_aged he
      have hle : u.missingFrames ≤ MAX_MISSING_FRAMES :=
        of_decide_eq_true hfil.2
      rw [hu_eq] at hle
      simp only at hle
      unfold MAX_MISSING_FRAMES at hm hle
      omega
    · have h1 : u.id ∈ trackIds new := List.mem_map_of_mem _ h
      rw [e3] at h1
      have h5 := (List.mem_range'_1.mp h1).1
      have h6 := hb t ht
      omega
  have hstale : ∀ u ∈ (stepState s dets now).tracks,
      u.missingFrames ≤ MAX_MISSING_FRAMES := by
    intro u hu
    rw [e1] at hu
    exact of_decide_eq_true (List.mem_filter.mp hu).2
  refine ⟨?_, hnotin, hstale, ?_⟩
  · rw [snapIds_stepOut]
    exact hnotin
  · intro fs
    exact tRun_dead fs (stepState s dets now) t.id
      (step_bound s dets now hb)
      (lt_of_lt_of_le (hb t ht) (step_nextId_mono s dets now))
      hnotin

/-- A track that has already missed `MAX_MISSING_FRAMES` consecutive frames
(used by the C5 witness). -/
def c5Track : TrackedFace := ⟨7, 0, ⟨0, 0, 10, 10⟩, ⟨50, 50, 50⟩, [], ⟨10, 0⟩, 5⟩

/-- Witness for C5: one more empty frame retires the track with identity 7,
which then appears neither in the frame's snapshots nor in the post-frame
state. -/
theorem C5_track_retirement_witness :
    (7 : ℕ) ∉ snapIds (stepOut ⟨[c5Track], 8⟩ [] 0) ∧
    (7 : ℕ) ∉ trackIds (stepState ⟨[c5Track], 8⟩ [] 0).tracks := by
  have h := C5_track_retirement ⟨[c5Track], 8⟩ [] 0 c5Track
    (List.mem_singleton.mpr rfl)
    (by norm_num [c5Track, MAX_MISSING_FRAMES])
    (by intro a ha
        simp [stepAssigns, stepFull, matchPhase] at ha)
    (by intro u hu
        rw [List.mem_singleton] at hu
        subst hu
        norm_num [c5Track])
    (by simp [trackIds, c5Track])
  exact ⟨h.1, h.2.1⟩

/-- Aging the missing counters does not change the identity list. -/
lemma aged_ids (s : TState) :
    trackIds (s.tracks.map
      (fun u => { u with missingFrames := u.missingFrames + 1 }))
      = trackIds s.tracks := by
  simp only [trackIds, List.map_map]
  rfl

/-- The track of the C1 counterexample. -/
def cexTrack : TrackedFace := ⟨1, 0, ⟨0, 0, 10, 10⟩, ⟨50, 50, 50⟩, [], ⟨10, 0⟩, 0⟩

/-- A detection sitting exactly on that track's center. -/
def cexDet : RawDet := ⟨0, 0, 10, 10, 0, 0, 0, 0, 0, 0, 0⟩

/-- Counterexample to C1 as stated.  With a single live track and a frame
holding two identical detections at its center, the greedy matcher assigns
the same track (identity 1) to both detections — it never excludes a track
that an earlier detection already claimed — so the per-frame assignment is
not one-to-one: the matched identities contain a duplicate, and the track
is mutated twice in the one frame (two history entries pushed). -/
theorem C1_counterexample :
    stepAssigns ⟨[cexTrack], 2⟩ [cexDet, cexDet] 0 = [some 1, some 1] ∧
    ¬ ((stepAssigns ⟨[cexTrack], 2⟩ [cexDet, cexDet] 0).filterMap id).Nodup ∧
    (stepState ⟨[cexTrack], 2⟩ [cexDet, cexDet] 0).tracks.map
      (fun t => t.history.length) = [2] := by
  have h : stepAssigns ⟨[cexTrack], 2⟩ [cexDet, cexDet] 0 = [some 1, some 1] := by
    norm_num [stepAssigns, stepFull, matchPhase, matchStep, bestMatchIdx,
      toDetObj, updateTrack, clamp100, cexTrack, cexDet, List.enum, List.foldl]
  refine ⟨h, by rw [h]; decide, ?_⟩
  norm_num [stepState, stepFull, matchPhase, matchStep, bestMatchIdx,
    toDetObj, updateTrack, createPhase, clamp100, cexTrack, cexDet,
    List.enum, List.foldl, MAX_MISSING_FRAMES]

/-- C1 (amended).  Each detection is assigned at most one track per frame —
the matcher records exactly one assignment (possibly none) per detection,
in detection order — and every assigned identity is that of one of the
frame's pre-existing tracks; but the same track may be claimed by several
detections of one frame, because the greedy scan never excludes
already-claimed tracks (`C1_counterexample`). -/
theorem C1_matching_amended (s : TState) (dets : List RawDet) (now : ℚ) :
    (stepAssigns s dets now).length = dets.length ∧
    ∀ a ∈ stepAssigns s dets now,
      a = none ∨ ∃ tid, a = some tid ∧ tid ∈ trackIds s.tracks := by
  have hassigns : stepAssigns s dets now
      = ((dets.map toDetObj).foldl (matchStep now)
        (s.tracks.map (fun u => { u with missingFrames := u.missingFrames + 1 }),
          ([] : List (Option ℕ)))).2 := rfl
  constructor
  · rw [hassigns, matchFold_assigns_length]
    simp
  · intro a ha
    rw [hassigns] at ha
    rcases matchFold_assigns_mem now (dets.map toDetObj) _ a ha
      with h | h | ⟨tid, rfl, htid⟩
    · simp at h
    · exact Or.inl h
    · refine Or.inr ⟨tid, rfl, ?_⟩
      rw [aged_ids] at htid
      exact htid

/-- Pointwise characterization of `zip` lookups. -/
lemma getElem?_zip_some {α β : Type} :
    ∀ (l₁ : List α) (l₂ : List β) (i : ℕ) (a : α) (b : β),
      l₁[i]? = some a → l₂[i]? = some b → (l₁.zip l₂)[i]? = some (a, b) := by
  intro l₁
  induction l₁ with
  | nil => intro l₂ i a b h _; simp at h
  | cons x xs ih =>
      intro l₂ i a b h1 h2
      cases l₂ with
      | nil => simp at h2
      | cons y ys =>
          cases i with
          | zero =>
              simp_all
          | succ i =>
              simp only [List.getElem?_cons_succ] at h1 h2
              simp only [List.zip_cons_cons, List.getElem?_cons_succ]
              exact ih ys i a b h1 h2

/-- The structurally invalid detection of the C4 counterexample: its
bounding box has width and height `-5`. -/
def cexBadDet : RawDet := ⟨0, 0, -5, -5, 0, 0, 0, 0, 0, 0, 0⟩

/-- Counterexample to C4 as stated.  Feeding the detection with a
`-5 × -5` box to an empty tracker mutates state: a track (identity 1) is
created from it and its negative width is propagated verbatim into the
track, so the core performs no structural validation and does not drop the
detection before matching. -/
theorem C4_counterexample :
    trackIds (stepState tInit [cexBadDet] 0).tracks = [1] ∧
    (stepState tInit [cexBadDet] 0).tracks.map (fun t => t.box.w) = [-5] := by
  constructor <;>
    norm_num [stepState, stepFull, matchPhase, matchStep, bestMatchIdx,
      toDetObj, createPhase, newTrack, clamp100, trackIds, cexBadDet, tInit,
      List.enum, List.foldl, MAX_MISSING_FRAMES, snapshotOf]

/-- C4 (amended).  The core performs no validation of detections: every
detection left unmatched by the greedy pass — whatever its box dimensions
or biometric values, including structurally invalid ones — creates a fresh
track that copies its box and raw metrics verbatim, with a fresh identity
and missing counter zero, and that track is part of the post-frame state
and of the emitted snapshots. -/
theorem C4_no_validation_amended (s : TState) (dets : List RawDet) (now : ℚ)
    (j : ℕ) (d : RawDet) (hd : dets[j]? = some d)
    (hun : (stepAssigns s dets now)[j]? = some none) :
    ∃ t ∈ (stepState s dets now).tracks,
      t.box = ⟨d.x, d.y, d.width, d.height⟩ ∧
      t.metrics = (toDetObj d).metrics ∧
      s.nextId ≤ t.id ∧ t.missingFrames = 0 := by
  have hassigns : stepAssigns s dets now
      = (matchPhase
          (s.tracks.map (fun u => { u with missingFrames := u.missingFrames + 1 }))
          (dets.map toDetObj) now).2 := rfl
  rw [hassigns] at hun
  have hobj : (dets.map toDetObj)[j]? = some (toDetObj d) := by
    rw [List.getElem?_map, hd]
    rfl
  have hzip := getElem?_zip_some (dets.map toDetObj)
    (matchPhase
      (s.tracks.map (fun u => { u with missingFrames := u.missingFrames + 1 }))
      (dets.map toDetObj) now).2 j (toDetObj d) none hobj hun
  obtain ⟨t, ht, hbx, hmet, hle, hmf⟩ := createPhase_creates now
    ((dets.map toDetObj).zip (matchPhase
      (s.tracks.map (fun u => { u with missingFrames := u.missingFrames + 1 }))
      (dets.map toDetObj) now).2)
    (matchPhase
      (s.tracks.map (fun u => { u with missingFrames := u.missingFrames + 1 }))
      (dets.map toDetObj) now).1
    s.nextId j (toDetObj d) hzip
  have hstep : (stepState s dets now).tracks
      = (createPhase
          (matchPhase
            (s.tracks.map (fun u => { u with missingFrames := u.missingFrames + 1 }))
            (dets.map toDetObj) now).1
          s.nextId
          ((dets.map toDetObj).zip (matchPhase
            (s.tracks.map (fun u => { u with missingFrames := u.missingFrames + 1 }))
            (dets.map toDetObj) now).2) now).1.filter
          (fun t => decide (t.missingFrames ≤ MAX_MISSING_FRAMES)) := rfl
  refine ⟨t, ?_, hbx, hmet, hle, hmf⟩
  rw [hstep]
  refine List.mem_filter.mpr ⟨ht, ?_⟩
  simp [hmf, MAX_MISSING_FRAMES]

/-- Witness for the amended C4: the invalid `-5 × -5` detection creates a
live track carrying that box. -/
theorem C4_no_validation_witness :
    ∃ t ∈ (stepState tInit [cexBadDet] 0).tracks,
      t.box = ⟨0, 0, -5, -5⟩ ∧
      t.metrics = (toDetObj cexBadDet).metrics ∧
      (1 : ℕ) ≤ t.id ∧ t.missingFrames = 0 := by
  have h := C4_no_validation_amended tInit [cexBadDet] 0 0 cexBadDet rfl
    (by norm_num [stepAssigns, stepFull, matchPhase, matchStep, bestMatchIdx,
      toDetObj, clamp100, cexBadDet, tInit, List.enum, List.foldl])
  exact h
